import Mathlib

set_option maxHeartbeats 1000000

/-!
Verification of the esphome-linux native API core.

The definitions below are a shallow embedding of the C sources:

* `src/src/esphome_proto.c` : the protobuf-style buffer, varint codec,
  field encoders and the frame layer;
* `src/src/esphome_api.c` : the session message handlers and dispatcher;
* `src/plugins/bluetooth_proxy/bluetooth_proxy_plugin.c` and
  `src/plugins/bluetooth_proxy/ble_scanner.c` : the advertisement cache,
  the periodic report tick and the batching pipeline.

Machine integers are modelled as `Nat` with explicit `% 2 ^ w` where the C
semantics truncates; C byte buffers are `List Nat` holding values below 256;
C strings are the byte list before the terminating NUL.
-/

/-- Model of `pb_buffer_t`: for a write buffer, `data` holds the bytes written
so far (the C keeps them in `data[0..pos)` and never reads them back), for a
read buffer `data` is the whole input window; `size` is the capacity, `pos`
the cursor and `error` the sticky error flag. -/
structure PbBuf where
  data : List Nat
  size : Nat
  pos : Nat
  error : Bool
deriving DecidableEq

/-- `pb_buffer_init_write`. -/
def pb_buffer_init_write (size : Nat) : PbBuf :=
  { data := [], size := size, pos := 0, error := false }

/-- `pb_buffer_init_read`. -/
def pb_buffer_init_read (data : List Nat) : PbBuf :=
  { data := data, size := data.length, pos := 0, error := false }

/-- The write `buf->data[buf->pos++] = b` on a write buffer: the byte is
appended (the written prefix grows by one) and the cursor advances. -/
def pbWrite (buf : PbBuf) (b : Nat) : PbBuf :=
  { buf with data := buf.data ++ [b], pos := buf.pos + 1 }

/-- `buf->error = true`. -/
def pb_set_error (buf : PbBuf) : PbBuf :=
  { buf with error := true }

/-- `pb_encode_varint` (esphome_proto.c:32): writes 7-bit groups, low group
first, continuation bit `0x80` on all but the last.  `value & 0x7F` is
`value % 128`, `value >> 7` is `value / 128`; the cast to `uint8_t` is the
identity on the written values. -/
def pb_encode_varint (buf : PbBuf) (value : Nat) : PbBuf × Bool :=
  if value > 127 then
    if buf.pos ≥ buf.size then (pb_set_error buf, false)
    else pb_encode_varint (pbWrite buf (value % 128 + 128)) (value / 128)
  else
    if buf.pos ≥ buf.size then (pb_set_error buf, false)
    else (pbWrite buf (value % 128), true)
termination_by value
decreasing_by exact Nat.div_lt_self (by omega) (by omega)

/-- Loop body of `pb_decode_varint` (esphome_proto.c:51), with the
accumulated `*value` and `shift` threaded through.  The byte read from the
window is a `uint8_t`, hence the `% 256`; `byte & 0x7F` is `byte % 128`,
`(byte & 0x80) == 0` is `byte < 128`, and the C shift
`((uint64_t)(byte & 0x7F)) << shift` truncates modulo `2 ^ 64`. -/
def pb_decode_varint_go (buf : PbBuf) (value shift : Nat) : PbBuf × Option Nat :=
  if h : buf.pos < buf.size then
    let byte := buf.data.getD buf.pos 0 % 256
    let buf1 : PbBuf := { buf with pos := buf.pos + 1 }
    let value1 := value ||| byte % 128 * 2 ^ shift % 2 ^ 64
    if byte < 128 then (buf1, some value1)
    else if shift + 7 > 63 then (pb_set_error buf1, none)
    else pb_decode_varint_go buf1 value1 (shift + 7)
  else (pb_set_error buf, none)
termination_by buf.size - buf.pos
decreasing_by simp_wf; omega

/-- `pb_decode_varint`: starts with `*value = 0`, `shift = 0`; `none` models
the `false` return (the sticky error flag is set on the returned buffer). -/
def pb_decode_varint (buf : PbBuf) : PbBuf × Option Nat :=
  pb_decode_varint_go buf 0 0

/-- The byte sequence `pb_encode_varint` produces for a value (pure
specification used to state the codec lemmas). -/
def varintBytes (value : Nat) : List Nat :=
  if value > 127 then (value % 128 + 128) :: varintBytes (value / 128)
  else [value % 128]
termination_by value
decreasing_by exact Nat.div_lt_self (by omega) (by omega)

/-- `varint_len v` is the number of bytes in the varint encoding of `v`. -/
def varint_len (value : Nat) : Nat :=
  (varintBytes value).length

theorem varintBytes_small {v : Nat} (h : v ≤ 127) : varintBytes v = [v] := by
  rw [varintBytes, if_neg (by omega), Nat.mod_eq_of_lt (by omega)]

theorem varintBytes_length_pos (v : Nat) : 0 < (varintBytes v).length := by
  rw [varintBytes]
  split <;> exact Nat.succ_pos _

theorem varintBytes_length_le :
    ∀ (k v : Nat), v < 2 ^ (7 * (k + 1)) → (varintBytes v).length ≤ k + 1 := by
  intro k
  induction k with
  | zero =>
    intro v hv
    have h128 : v ≤ 127 := by
      have h2 : (2 : Nat) ^ (7 * (0 + 1)) = 128 := by norm_num
      omega
    rw [varintBytes_small h128]
    simp
  | succ k ih =>
    intro v hv
    rw [varintBytes]
    split
    · next hgt =>
      have hpow : (2 : Nat) ^ (7 * (k + 1 + 1)) = 2 ^ (7 * (k + 1)) * 128 := by
        have h7 : 7 * (k + 1 + 1) = 7 * (k + 1) + 7 := by ring
        rw [h7, pow_add]
        norm_num
      have hdiv : v / 128 < 2 ^ (7 * (k + 1)) := by omega
      have := ih (v / 128) hdiv
      simpa using this
    · simp

theorem lor_mul_two_pow {s a b : Nat} (ha : a < 2 ^ s) :
    a ||| b * 2 ^ s = a + b * 2 ^ s := by
  induction s generalizing a b with
  | zero =>
    interval_cases a
    simp
  | succ s ih =>
    have hsplit : a ||| b * 2 ^ (s + 1) =
        2 * (a / 2 ||| b * 2 ^ s) + a % 2 := by
      have hdiv : (a ||| b * 2 ^ (s + 1)) / 2 = a / 2 ||| b * 2 ^ s := by
        rw [Nat.or_div_two]
        congr 1
        rw [pow_succ, ← Nat.mul_assoc]
        exact Nat.mul_div_cancel _ (by omega)
      have hmod : (a ||| b * 2 ^ (s + 1)) % 2 = a % 2 := by
        have hb : b * 2 ^ (s + 1) % 2 = 0 := by
          rw [pow_succ, ← Nat.mul_assoc]
          exact Nat.mul_mod_left _ 2
        rcases Nat.mod_two_eq_zero_or_one a with h | h
        · have hne : ¬ (a ||| b * 2 ^ (s + 1)) % 2 = 1 := by
            rw [Nat.or_mod_two_eq_one]
            omega
          omega
        · have heq : (a ||| b * 2 ^ (s + 1)) % 2 = 1 := by
            rw [Nat.or_mod_two_eq_one]
            omega
          omega
      omega
    have hpow : (2 : Nat) ^ (s + 1) = 2 ^ s * 2 := pow_succ 2 s
    have ha2 : a / 2 < 2 ^ s := by omega
    rw [hsplit, ih ha2]
    have hx : b * 2 ^ (s + 1) = 2 * (b * 2 ^ s) := by
      rw [pow_succ]
      ring
    omega

theorem pb_encode_varint_spec :
    ∀ (v : Nat) (buf : PbBuf),
      buf.pos + (varintBytes v).length ≤ buf.size →
      pb_encode_varint buf v =
        ({ buf with data := buf.data ++ varintBytes v,
                    pos := buf.pos + (varintBytes v).length }, true) := by
  intro v
  induction v using Nat.strong_induction_on with
  | _ v ih =>
    intro buf hroom
    by_cases hv : v > 127
    · have hlen : varintBytes v = (v % 128 + 128) :: varintBytes (v / 128) := by
        rw [varintBytes, if_pos hv]
      have hpos : ¬ buf.pos ≥ buf.size := by
        rw [hlen] at hroom
        simp only [List.length_cons] at hroom
        omega
      have hroom2 : buf.pos + 1 + (varintBytes (v / 128)).length ≤ buf.size := by
        rw [hlen] at hroom
        simp only [List.length_cons] at hroom
        omega
      rw [pb_encode_varint, if_pos hv, if_neg hpos,
          ih (v / 128) (Nat.div_lt_self (by omega) (by omega)) _ hroom2, hlen]
      simp only [pbWrite, List.cons_append, List.append_assoc, List.singleton_append,
        List.length_cons, Prod.mk.injEq, PbBuf.mk.injEq, true_and, and_true]
      exact ⟨by simp, by omega⟩
    · have hlen : varintBytes v = [v] := varintBytes_small (by omega)
      have hpos : ¬ buf.pos ≥ buf.size := by
        rw [hlen] at hroom
        simp only [List.length_singleton] at hroom
        omega
      rw [pb_encode_varint, if_neg hv, if_neg hpos, hlen]
      simp [pbWrite, Nat.mod_eq_of_lt (show v < 128 by omega)]

theorem getD_of_drop_cons {l : List Nat} {n a : Nat} {rest : List Nat}
    (h : l.drop n = a :: rest) : l.getD n 0 = a := by
  have h1 : l[n]? = some a := by
    have h2 := List.getElem?_drop l n 0
    rw [h] at h2
    simpa using h2.symm
  simp [List.getD_eq_getElem?_getD, h1]

theorem drop_succ_of_drop_cons {l : List Nat} {n a : Nat} {rest : List Nat}
    (h : l.drop n = a :: rest) : l.drop (n + 1) = rest := by
  have h2 := List.tail_drop l n
  rw [h] at h2
  simpa using h2.symm

theorem pb_decode_varint_go_spec :
    ∀ (v : Nat) (buf : PbBuf) (value shift : Nat) (rest : List Nat),
      buf.data.drop buf.pos = varintBytes v ++ rest →
      buf.pos + (varintBytes v).length ≤ buf.size →
      value < 2 ^ shift →
      shift + 7 * ((varintBytes v).length - 1) ≤ 56 →
      pb_decode_varint_go buf value shift =
        ({ buf with pos := buf.pos + (varintBytes v).length },
          some (value + v * 2 ^ shift)) := by
  intro v
  induction v using Nat.strong_induction_on with
  | _ v ih =>
    intro buf value shift rest hdrop hroom hvalue hbudget
    by_cases hv : v > 127
    · have hlen : varintBytes v = (v % 128 + 128) :: varintBytes (v / 128) := by
        rw [varintBytes, if_pos hv]
      rw [hlen] at hdrop hroom hbudget
      simp only [List.length_cons, List.cons_append] at hdrop hroom hbudget
      have hlen2 : 0 < (varintBytes (v / 128)).length := varintBytes_length_pos _
      have hbyte : buf.data.getD buf.pos 0 = v % 128 + 128 := getD_of_drop_cons hdrop
      have hlt : buf.pos < buf.size := by omega
      have hfit : v % 128 * 2 ^ shift < 2 ^ 64 := by
        have h1 : v % 128 * 2 ^ shift < 128 * 2 ^ shift :=
          (Nat.mul_lt_mul_right (Nat.two_pow_pos shift)).mpr
            (Nat.mod_lt v (by omega))
        have h2 : (128 : Nat) * 2 ^ shift ≤ 2 ^ 63 := by
          have h3 : (128 : Nat) * 2 ^ shift = 2 ^ (shift + 7) := by
            rw [pow_add]
            ring
          rw [h3]
          exact Nat.pow_le_pow_right (by omega) (by omega)
        have h4 : (2 : Nat) ^ 63 < 2 ^ 64 := by norm_num
        omega
      have hval1lt : value + v % 128 * 2 ^ shift < 2 ^ (shift + 7) := by
        have h1 : v % 128 * 2 ^ shift ≤ 127 * 2 ^ shift :=
          Nat.mul_le_mul_right _ (by omega)
        have h2 : (2 : Nat) ^ (shift + 7) = 128 * 2 ^ shift := by
          rw [pow_add]
          ring
        omega
      have hdrop2 : buf.data.drop (buf.pos + 1) = varintBytes (v / 128) ++ rest :=
        drop_succ_of_drop_cons hdrop
      have hroomr : buf.pos + 1 + (varintBytes (v / 128)).length ≤ buf.size := by
        omega
      have hbudget2 : shift + 7 + 7 * ((varintBytes (v / 128)).length - 1) ≤ 56 := by
        omega
      have hrec := ih (v / 128) (Nat.div_lt_self (by omega) (by omega))
        { buf with pos := buf.pos + 1 }
        (value + v % 128 * 2 ^ shift) (shift + 7) rest hdrop2 hroomr hval1lt hbudget2
      have hkey : value + v % 128 * 2 ^ shift + v / 128 * 2 ^ (shift + 7)
          = value + v * 2 ^ shift := by
        have hpow : (2 : Nat) ^ (shift + 7) = 2 ^ shift * 128 := by
          rw [pow_add]
          norm_num
        have hsplit : v * 2 ^ shift
            = 128 * (v / 128) * 2 ^ shift + v % 128 * 2 ^ shift := by
          conv_lhs => rw [← Nat.div_add_mod v 128]
          ring
        rw [hpow, hsplit]
        ring
      have hmod : (v % 128 + 128) % 256 = v % 128 + 128 := Nat.mod_eq_of_lt (by omega)
      have hsmall : (v % 128 + 128) % 128 = v % 128 := by omega
      have hval1 : value ||| (v % 128 + 128) % 128 * 2 ^ shift % 2 ^ 64
          = value + v % 128 * 2 ^ shift := by
        rw [hsmall, Nat.mod_eq_of_lt hfit, lor_mul_two_pow hvalue]
      rw [pb_decode_varint_go, dif_pos hlt]
      simp only [hbyte, hmod, hval1]
      rw [if_neg (by omega), if_neg (by omega), hrec, hlen]
      have hposeq : buf.pos + 1 + (varintBytes (v / 128)).length
          = buf.pos + ((varintBytes (v / 128)).length + 1) := by omega
      simp only [List.length_cons, Prod.mk.injEq, PbBuf.mk.injEq]
      exact ⟨by simp [hposeq], by rw [hkey]⟩
    · have hlen : varintBytes v = [v] := varintBytes_small (by omega)
      rw [hlen] at hdrop hroom hbudget
      simp only [List.length_singleton, List.singleton_append] at hdrop hroom hbudget
      have hbyte : buf.data.getD buf.pos 0 = v := getD_of_drop_cons hdrop
      have hlt : buf.pos < buf.size := by omega
      have hfit : v * 2 ^ shift < 2 ^ 64 := by
        have h1 : v * 2 ^ shift < 128 * 2 ^ shift :=
          (Nat.mul_lt_mul_right (Nat.two_pow_pos shift)).mpr (by omega)
        have h2 : (128 : Nat) * 2 ^ shift ≤ 2 ^ 63 := by
          have h3 : (128 : Nat) * 2 ^ shift = 2 ^ (shift + 7) := by
            rw [pow_add]
            ring
          rw [h3]
          exact Nat.pow_le_pow_right (by omega) (by omega)
        have h4 : (2 : Nat) ^ 63 < 2 ^ 64 := by norm_num
        omega
      have hmod : v % 256 = v := Nat.mod_eq_of_lt (by omega)
      have hsmall : v % 128 = v := Nat.mod_eq_of_lt (by omega)
      have hval1 : value ||| v % 128 * 2 ^ shift % 2 ^ 64 = value + v * 2 ^ shift := by
        rw [hsmall, Nat.mod_eq_of_lt hfit, lor_mul_two_pow hvalue]
      rw [pb_decode_varint_go, dif_pos hlt]
      simp only [hbyte, hmod, hval1]
      rw [if_pos (by omega : v < 128), hlen]
      simp

theorem pb_decode_varint_spec (v : Nat) (data rest : List Nat)
    (hdata : data = varintBytes v ++ rest)
    (hbudget : 7 * ((varintBytes v).length - 1) ≤ 56) :
    pb_decode_varint (pb_buffer_init_read data) =
      ({ pb_buffer_init_read data with pos := (varintBytes v).length }, some v) := by
  have h := pb_decode_varint_go_spec v (pb_buffer_init_read data) 0 0 rest
    (by simp [pb_buffer_init_read, hdata])
    (by simp [pb_buffer_init_read, hdata])
    (by norm_num)
    (by simpa using hbudget)
  simpa [pb_decode_varint, pb_buffer_init_read] using h

theorem pb_decode_varint_go_props :
    ∀ (fuel : Nat) (buf : PbBuf) (value shift : Nat),
      buf.size - buf.pos ≤ fuel →
      (pb_decode_varint_go buf value shift).1.data = buf.data ∧
      (pb_decode_varint_go buf value shift).1.size = buf.size ∧
      buf.pos ≤ (pb_decode_varint_go buf value shift).1.pos ∧
      (buf.pos ≤ buf.size → (pb_decode_varint_go buf value shift).1.pos ≤ buf.size) := by
  intro fuel
  induction fuel with
  | zero =>
    intro buf value shift hfuel
    rw [pb_decode_varint_go, dif_neg (by omega)]
    exact ⟨rfl, rfl, Nat.le_refl _, fun h => h⟩
  | succ fuel ih =>
    intro buf value shift hfuel
    by_cases hlt : buf.pos < buf.size
    · rw [pb_decode_varint_go, dif_pos hlt]
      dsimp only
      split
      · exact ⟨rfl, rfl, Nat.le_succ _, fun _ => hlt⟩
      · split
        · exact ⟨rfl, rfl, Nat.le_succ _, fun _ => hlt⟩
        · obtain ⟨h1, h2, h3, h4⟩ := ih { buf with pos := buf.pos + 1 }
            (value ||| buf.data.getD buf.pos 0 % 256 % 128 * 2 ^ shift % 2 ^ 64)
            (shift + 7) (show buf.size - (buf.pos + 1) ≤ fuel by omega)
          exact ⟨h1, h2, Nat.le_trans (Nat.le_succ _) h3, fun _ => h4 hlt⟩
    · rw [pb_decode_varint_go, dif_neg hlt]
      exact ⟨rfl, rfl, Nat.le_refl _, fun h => h⟩

theorem pb_decode_varint_go_cont_fail :
    ∀ (n : Nat) (buf : PbBuf) (value shift : Nat),
      shift ≤ 63 → 63 < shift + 7 * n →
      (∀ j, j < n → buf.pos + j < buf.size ∧
        128 ≤ buf.data.getD (buf.pos + j) 0 % 256) →
      (pb_decode_varint_go buf value shift).2 = none ∧
      (pb_decode_varint_go buf value shift).1.error = true := by
  intro n
  induction n with
  | zero =>
    intro buf value shift h1 h2 h3
    exact absurd h2 (by omega)
  | succ n ih =>
    intro buf value shift hle hgt hbytes
    obtain ⟨hpos0, hbyte0⟩ := hbytes 0 (by omega)
    simp only [Nat.add_zero] at hpos0 hbyte0
    rw [pb_decode_varint_go, dif_pos hpos0]
    dsimp only
    rw [if_neg (by omega)]
    by_cases hsh : shift + 7 > 63
    · rw [if_pos hsh]
      exact ⟨rfl, rfl⟩
    · rw [if_neg hsh]
      apply ih { buf with pos := buf.pos + 1 } _ (shift + 7) (by omega) (by omega)
      intro j hj
      obtain ⟨ha, hb⟩ := hbytes (j + 1) (by omega)
      have hidx : buf.pos + 1 + j = buf.pos + (j + 1) := by omega
      exact ⟨by dsimp only; omega, by dsimp only; rw [hidx]; exact hb⟩

/-- C2: for every `v` in `[0, 2 ^ 63)`, encoding `v` with `pb_encode_varint`
into a sufficiently large write buffer succeeds, and decoding the produced
bytes with `pb_decode_varint` succeeds and returns exactly `v`. -/
theorem varint_roundtrip (v size : Nat) (hv : v < 2 ^ 63) (hsize : 10 ≤ size) :
    (pb_encode_varint (pb_buffer_init_write size) v).2 = true ∧
    (pb_decode_varint (pb_buffer_init_read
        (pb_encode_varint (pb_buffer_init_write size) v).1.data)).2 = some v := by
  have h9 : (varintBytes v).length ≤ 9 := by
    apply varintBytes_length_le 8 v
    norm_num
    omega
  have henc := pb_encode_varint_spec v (pb_buffer_init_write size)
    (show (pb_buffer_init_write size).pos + (varintBytes v).length ≤
        (pb_buffer_init_write size).size by
      simp only [pb_buffer_init_write]
      omega)
  rw [henc]
  refine ⟨rfl, ?_⟩
  have hdata : ({ pb_buffer_init_write size with
      data := (pb_buffer_init_write size).data ++ varintBytes v,
      pos := (pb_buffer_init_write size).pos + (varintBytes v).length } : PbBuf).data
      = varintBytes v := by
    simp [pb_buffer_init_write]
  rw [hdata]
  have hdec := pb_decode_varint_spec v (varintBytes v) [] (by simp) (by omega)
  rw [hdec]

/-- C2 witness: the round trip at the concrete value 300 with buffer size 10. -/
theorem varint_roundtrip_witness :
    (pb_encode_varint (pb_buffer_init_write 10) 300).2 = true ∧
    (pb_decode_varint (pb_buffer_init_read
        (pb_encode_varint (pb_buffer_init_write 10) 300).1.data)).2 = some 300 :=
  varint_roundtrip 300 10 (by norm_num) (by norm_num)

/-- C3 counterexample: a varint of ten 7-bit groups (ten bytes, the first
nine with the continuation bit set) is accepted by `pb_decode_varint`, which
consumes all ten bytes, leaves the error flag clear and returns `2 ^ 63`;
the decoder does not fail when a tenth byte of the varint is consumed. -/
theorem varint_decode_ten_groups_succeeds :
    (pb_decode_varint (pb_buffer_init_read
        [128, 128, 128, 128, 128, 128, 128, 128, 128, 1])).2 = some (2 ^ 63) ∧
    (pb_decode_varint (pb_buffer_init_read
        [128, 128, 128, 128, 128, 128, 128, 128, 128, 1])).1.error = false ∧
    (pb_decode_varint (pb_buffer_init_read
        [128, 128, 128, 128, 128, 128, 128, 128, 128, 1])).1.pos = 10 := by
  simp [pb_decode_varint, pb_decode_varint_go, pb_buffer_init_read]

/-- C3 amended: `pb_decode_varint` fails with the sticky error flag set
exactly when the varint needs more than ten 7-bit groups: whenever the first
ten available bytes all carry the continuation bit, decoding returns failure
(the tenth consumed continuation byte pushes the shift past 63).  Varints of
up to ten groups, in contrast, are accepted (see the ten-group theorem). -/
theorem varint_decode_overflow_fails (data : List Nat)
    (hbytes : ∀ j, j < 10 → j < data.length ∧ 128 ≤ data.getD j 0 % 256) :
    (pb_decode_varint (pb_buffer_init_read data)).2 = none ∧
    (pb_decode_varint (pb_buffer_init_read data)).1.error = true := by
  apply pb_decode_varint_go_cont_fail 10 (pb_buffer_init_read data) 0 0
    (by omega) (by omega)
  intro j hj
  obtain ⟨h1, h2⟩ := hbytes j hj
  exact ⟨by simpa [pb_buffer_init_read] using h1, by simpa [pb_buffer_init_read] using h2⟩

/-- C3 amended witness: eleven continuation bytes make the decoder fail. -/
theorem varint_decode_overflow_fails_witness :
    (pb_decode_varint (pb_buffer_init_read (List.replicate 11 128))).2 = none ∧
    (pb_decode_varint (pb_buffer_init_read (List.replicate 11 128))).1.error = true :=
  varint_decode_overflow_fails (List.replicate 11 128) (by decide)

/-- `esphome_frame_message` (esphome_proto.c:520): writes the preamble byte
`0x00`, the payload length as a varint (payload only, not counting the type),
the message type as a varint, then the payload bytes.  Returns the framed
bytes; `none` models the zero return on overflow. -/
def esphome_frame_message (out_size : Nat) (msg_type : Nat) (payload : List Nat) :
    Option (List Nat) :=
  if out_size < 1 then none
  else
    match pb_encode_varint (pbWrite (pb_buffer_init_write out_size) 0) payload.length with
    | (_, false) => none
    | (pb, true) =>
      match pb_encode_varint pb msg_type with
      | (_, false) => none
      | (pb, true) =>
        if pb.pos + payload.length > out_size then none
        else some (pb.data ++ payload)

/-- `esphome_decode_frame_header` (esphome_proto.c:552): checks the preamble,
decodes the payload-length varint and the type varint, checks that the whole
payload is buffered, and returns `some (payload offset, payload length,
message type)`; `none` models the zero return.  The C stores are
`*msg_len = (uint32_t)len64` (truncation modulo `2 ^ 32`) and
`*msg_type = (uint16_t)type64` (modulo `2 ^ 16`). -/
def esphome_decode_frame_header (data : List Nat) : Option (Nat × Nat × Nat) :=
  if data.length < 1 ∨ data.getD 0 0 % 256 ≠ 0 then none
  else
    match pb_decode_varint { pb_buffer_init_read data with pos := 1 } with
    | (_, none) => none
    | (pb1, some len64) =>
      match pb_decode_varint pb1 with
      | (_, none) => none
      | (pb2, some type64) =>
        if pb2.pos + len64 % 2 ^ 32 > data.length then none
        else some (pb2.pos, len64 % 2 ^ 32, type64 % 2 ^ 16)

theorem frame_header_some_bounds (data : List Nat) (off len t : Nat)
    (h : esphome_decode_frame_header data = some (off, len, t)) :
    data.getD 0 0 % 256 = 0 ∧ 0 < off ∧ off + len ≤ data.length := by
  unfold esphome_decode_frame_header at h
  by_cases h0 : data.length < 1 ∨ data.getD 0 0 % 256 ≠ 0
  · rw [if_pos h0] at h
    exact absurd h (by simp)
  · rw [if_neg h0] at h
    push_neg at h0
    obtain ⟨hlen1, hpre⟩ := h0
    rcases hd1 : pb_decode_varint { pb_buffer_init_read data with pos := 1 } with ⟨pb1, r1⟩
    rw [hd1] at h
    cases r1 with
    | none => simp at h
    | some len64 =>
      dsimp only at h
      rcases hd2 : pb_decode_varint pb1 with ⟨pb2, r2⟩
      rw [hd2] at h
      cases r2 with
      | none => simp at h
      | some t64 =>
        dsimp only at h
        by_cases hfit : pb2.pos + len64 % 2 ^ 32 > data.length
        · rw [if_pos hfit] at h
          simp at h
        · rw [if_neg hfit] at h
          simp only [Option.some.injEq, Prod.mk.injEq] at h
          obtain ⟨hoff, hlen, ht⟩ := h
          have hp1 := pb_decode_varint_go_props data.length
            { pb_buffer_init_read data with pos := 1 } 0 0
            (by simp [pb_buffer_init_read])
          rw [show pb_decode_varint_go { pb_buffer_init_read data with pos := 1 } 0 0
              = pb_decode_varint { pb_buffer_init_read data with pos := 1 } from rfl,
            hd1] at hp1
          obtain ⟨hq1, hq2, hq3, hq4⟩ := hp1
          simp only [pb_buffer_init_read] at hq1 hq2 hq3 hq4
          have hpos1 : 1 ≤ pb1.pos := hq3
          have hsz1 : pb1.size = data.length := hq2
          have hle1 : pb1.pos ≤ data.length := by
            apply le_trans (hq4 (by omega))
            omega
          have hp2 := pb_decode_varint_go_props pb1.size pb1 0 0 (by omega)
          rw [show pb_decode_varint_go pb1 0 0 = pb_decode_varint pb1 from rfl, hd2] at hp2
          dsimp only at hp2
          obtain ⟨hr1, hr2, hr3, hr4⟩ := hp2
          refine ⟨hpre, by omega, by omega⟩

/-- C10: whenever `esphome_decode_frame_header` reports a frame, the frame it
reports lies entirely inside the buffered bytes: the offset is positive, the
first byte is the `0x00` preamble, and offset plus reported payload length
does not exceed the buffer length; and on a missing preamble (empty input or
nonzero first byte) it returns `none` (the zero return of the C). -/
theorem esphome_decode_frame_header_safe (data : List Nat) (off len t : Nat) :
    (esphome_decode_frame_header data = some (off, len, t) →
      data.getD 0 0 % 256 = 0 ∧ 0 < off ∧ off + len ≤ data.length) ∧
    ((data = [] ∨ data.getD 0 0 % 256 ≠ 0) → esphome_decode_frame_header data = none) := by
  constructor
  · exact frame_header_some_bounds data off len t
  · intro hbad
    unfold esphome_decode_frame_header
    rw [if_pos]
    rcases hbad with hnil | hpre
    · left
      simp [hnil]
    · right
      exact hpre

/-- C10 witness: the bounds at the concrete frame `00 02 08 09 09`
(payload length 2, type 8, payload `09 09`). -/
theorem esphome_decode_frame_header_safe_witness :
    ([0, 2, 8, 9, 9] : List Nat).getD 0 0 % 256 = 0 ∧ 0 < 3 ∧
      3 + 2 ≤ ([0, 2, 8, 9, 9] : List Nat).length :=
  (esphome_decode_frame_header_safe [0, 2, 8, 9, 9] 3 2 8).1
    (by simp [esphome_decode_frame_header, pb_decode_varint, pb_decode_varint_go,
      pb_buffer_init_read])

theorem pb_encode_varint_chain (v : Nat) (dataAcc : List Nat) (n pos : Nat) (err : Bool)
    (hroom : pos + (varintBytes v).length ≤ n) :
    pb_encode_varint ⟨dataAcc, n, pos, err⟩ v =
      (⟨dataAcc ++ varintBytes v, n, pos + (varintBytes v).length, err⟩, true) := by
  have h := pb_encode_varint_spec v ⟨dataAcc, n, pos, err⟩ hroom
  simpa using h

theorem pb_decode_varint_chain (v : Nat) (data rest : List Nat) (n pos : Nat) (err : Bool)
    (hdrop : data.drop pos = varintBytes v ++ rest)
    (hroom : pos + (varintBytes v).length ≤ n)
    (hbudget : 7 * ((varintBytes v).length - 1) ≤ 56) :
    pb_decode_varint ⟨data, n, pos, err⟩ =
      (⟨data, n, pos + (varintBytes v).length, err⟩, some v) := by
  have h := pb_decode_varint_go_spec v ⟨data, n, pos, err⟩ 0 0 rest hdrop hroom
    (by norm_num) (by omega)
  simpa [pb_decode_varint] using h

theorem esphome_frame_message_spec (out_size t : Nat) (P : List Nat)
    (hfit : 1 + (varintBytes P.length).length + (varintBytes t).length + P.length
      ≤ out_size) :
    esphome_frame_message out_size t P =
      some (0 :: (varintBytes P.length ++ (varintBytes t ++ P))) := by
  unfold esphome_frame_message
  rw [if_neg (by omega)]
  have hB0 : pbWrite (pb_buffer_init_write out_size) 0 =
      (⟨[0], out_size, 1, false⟩ : PbBuf) := by
    simp [pbWrite, pb_buffer_init_write]
  rw [hB0, pb_encode_varint_chain P.length [0] out_size 1 false (by omega)]
  dsimp only
  rw [pb_encode_varint_chain t ([0] ++ varintBytes P.length) out_size
      (1 + (varintBytes P.length).length) false (by omega)]
  dsimp only
  rw [if_neg (by omega)]
  simp

theorem frame_header_decode_spec (L t : Nat) (P : List Nat)
    (hL : (varintBytes L).length ≤ 9) (hT : (varintBytes t).length ≤ 9)
    (hlen : L % 2 ^ 32 ≤ P.length) :
    esphome_decode_frame_header (0 :: (varintBytes L ++ (varintBytes t ++ P)))
      = some (1 + (varintBytes L).length + (varintBytes t).length,
          L % 2 ^ 32, t % 2 ^ 16) := by
  unfold esphome_decode_frame_header
  rw [if_neg (by simp)]
  have hread : ({ pb_buffer_init_read (0 :: (varintBytes L ++ (varintBytes t ++ P)))
      with pos := 1 } : PbBuf) =
      ⟨0 :: (varintBytes L ++ (varintBytes t ++ P)),
        1 + ((varintBytes L).length + ((varintBytes t).length + P.length)), 1, false⟩ := by
    simp [pb_buffer_init_read]
    omega
  have hd1 : (0 :: (varintBytes L ++ (varintBytes t ++ P))).drop 1
      = varintBytes L ++ (varintBytes t ++ P) := by
    simp
  have hd2 : (0 :: (varintBytes L ++ (varintBytes t ++ P))).drop
      (1 + (varintBytes L).length) = varintBytes t ++ P := by
    rw [Nat.add_comm 1 (varintBytes L).length, List.drop_succ_cons,
      List.drop_left]
  rw [hread, pb_decode_varint_chain L _ (varintBytes t ++ P) _ 1 false hd1
    (by omega) (by omega)]
  dsimp only
  rw [pb_decode_varint_chain t _ P _ (1 + (varintBytes L).length) false hd2
    (by omega) (by omega)]
  dsimp only
  rw [if_neg (by simp only [List.length_cons, List.length_append]; omega)]

/-- C1 (amended): for every message type `t` (a `uint16_t`) and payload `P`
with `P.length < 2 ^ 32` that fits the output buffer, framing with
`esphome_frame_message` and decoding the frame with
`esphome_decode_frame_header` yields back exactly `t` and the payload length,
the payload bytes are unchanged at the returned offset, and the complete
frame occupies exactly `1 + varint_len P.length + varint_len t + P.length`
bytes.  (The bound `P.length < 2 ^ 32` is forced by the decoder truncating
the length varint to `uint32_t`; see the truncation counterexample.) -/
theorem frame_roundtrip (out_size t : Nat) (P : List Nat)
    (ht : t < 2 ^ 16) (hP : P.length < 2 ^ 32)
    (hfit : 1 + varint_len P.length + varint_len t + P.length ≤ out_size) :
    esphome_frame_message out_size t P =
      some (0 :: (varintBytes P.length ++ (varintBytes t ++ P))) ∧
    (0 :: (varintBytes P.length ++ (varintBytes t ++ P))).length
      = 1 + varint_len P.length + varint_len t + P.length ∧
    esphome_decode_frame_header (0 :: (varintBytes P.length ++ (varintBytes t ++ P)))
      = some (1 + varint_len P.length + varint_len t, P.length, t) ∧
    (0 :: (varintBytes P.length ++ (varintBytes t ++ P))).drop
      (1 + varint_len P.length + varint_len t) = P := by
  have hL9 : (varintBytes P.length).length ≤ 9 := by
    have h5 := varintBytes_length_le 4 P.length (by norm_num; omega)
    omega
  have hT9 : (varintBytes t).length ≤ 9 := by
    have h3 := varintBytes_length_le 2 t (by norm_num; omega)
    omega
  refine ⟨esphome_frame_message_spec out_size t P (by simpa [varint_len] using hfit),
    by simp [varint_len]; omega, ?_, ?_⟩
  · have hdec := frame_header_decode_spec P.length t P hL9 hT9
      (by rw [Nat.mod_eq_of_lt hP])
    rw [hdec, Nat.mod_eq_of_lt hP, Nat.mod_eq_of_lt ht]
    simp [varint_len]
  · rw [show 1 + varint_len P.length + varint_len t
        = ((varintBytes P.length).length + (varintBytes t).length) + 1 from by
      simp [varint_len]; omega]
    rw [List.drop_succ_cons, List.drop_append, List.drop_left]

/-- C1 witness: the round trip at type 1 and payload `[7, 9]` in a 16-byte
output buffer. -/
theorem frame_roundtrip_witness :
    esphome_frame_message 16 1 [7, 9] =
      some (0 :: (varintBytes ([7, 9] : List Nat).length ++ (varintBytes 1 ++ [7, 9]))) ∧
    (0 :: (varintBytes ([7, 9] : List Nat).length ++ (varintBytes 1 ++ [7, 9]))).length
      = 1 + varint_len ([7, 9] : List Nat).length + varint_len 1 + ([7, 9] : List Nat).length ∧
    esphome_decode_frame_header
        (0 :: (varintBytes ([7, 9] : List Nat).length ++ (varintBytes 1 ++ [7, 9])))
      = some (1 + varint_len ([7, 9] : List Nat).length + varint_len 1,
          ([7, 9] : List Nat).length, 1) ∧
    (0 :: (varintBytes ([7, 9] : List Nat).length ++ (varintBytes 1 ++ [7, 9]))).drop
      (1 + varint_len ([7, 9] : List Nat).length + varint_len 1) = [7, 9] :=
  frame_roundtrip 16 1 [7, 9] (by norm_num) (by norm_num)
    (by simp [varint_len, varintBytes])

/-- C1 counterexample: the claim fails as stated for a payload of length
`2 ^ 32` in a large enough buffer.  Framing succeeds, but decoding the frame
reports payload length `0` (the decoder stores the length as `uint32_t`,
truncating `2 ^ 32` to `0`), not the payload length `2 ^ 32`. -/
theorem frame_roundtrip_truncation :
    esphome_frame_message (2 ^ 32 + 16) 1 (List.replicate (2 ^ 32) 0) =
      some (0 :: (varintBytes (2 ^ 32) ++ (varintBytes 1 ++ List.replicate (2 ^ 32) 0))) ∧
    esphome_decode_frame_header
        (0 :: (varintBytes (2 ^ 32) ++ (varintBytes 1 ++ List.replicate (2 ^ 32) 0)))
      = some (7, 0, 1) ∧
    (List.replicate (2 ^ 32) (0 : Nat)).length = 2 ^ 32 ∧ (0 : Nat) ≠ 2 ^ 32 := by
  have h32 : varintBytes (2 ^ 32) = [128, 128, 128, 128, 16] := by
    simp [varintBytes]
  have h1 : varintBytes 1 = [1] := varintBytes_small (by norm_num)
  have hlenr : (List.replicate (2 ^ 32) (0 : Nat)).length = 2 ^ 32 :=
    List.length_replicate _ _
  refine ⟨?_, ?_, hlenr, by norm_num⟩
  · have henc := esphome_frame_message_spec (2 ^ 32 + 16) 1 (List.replicate (2 ^ 32) 0)
      (by rw [hlenr, h32, h1]; norm_num)
    rw [henc, hlenr]
  · have hdec := frame_header_decode_spec (2 ^ 32) 1 (List.replicate (2 ^ 32) 0)
      (by rw [h32]; norm_num) (by rw [h1]; norm_num)
      (by rw [Nat.mod_self]; exact Nat.zero_le _)
    rw [hdec, h32, h1]
    norm_num

/-- `PB_FIELD_TAG(field_num, wire_type)` = `(field_num << 3) | wire_type`. -/
def PB_FIELD_TAG (field_num wire_type : Nat) : Nat :=
  field_num <<< 3 ||| wire_type

theorem PB_FIELD_TAG_eq (f w : Nat) (hw : w < 8) : PB_FIELD_TAG f w = 8 * f + w := by
  unfold PB_FIELD_TAG
  rw [Nat.shiftLeft_eq, Nat.lor_comm, lor_mul_two_pow (show w < 2 ^ 3 by omega)]
  ring

/-- `pb_encode_string` (esphome_proto.c:78): empty strings are skipped
(optional field); otherwise tag, varint length, raw bytes. -/
def pb_encode_string (buf : PbBuf) (field_num : Nat) (str : List Nat) : PbBuf × Bool :=
  if str = [] then (buf, true)
  else
    match pb_encode_varint buf (PB_FIELD_TAG field_num 2) with
    | (buf, false) => (buf, false)
    | (buf, true) =>
      match pb_encode_varint buf str.length with
      | (buf, false) => (buf, false)
      | (buf, true) =>
        if buf.pos + str.length > buf.size then (pb_set_error buf, false)
        else ({ buf with data := buf.data ++ str, pos := buf.pos + str.length }, true)

/-- `pb_encode_bool` (esphome_proto.c:109). -/
def pb_encode_bool (buf : PbBuf) (field_num : Nat) (value : Bool) : PbBuf × Bool :=
  match pb_encode_varint buf (PB_FIELD_TAG field_num 0) with
  | (buf, false) => (buf, false)
  | (buf, true) => pb_encode_varint buf (if value then 1 else 0)

/-- `pb_encode_uint32` (esphome_proto.c:116). -/
def pb_encode_uint32 (buf : PbBuf) (field_num : Nat) (value : Nat) : PbBuf × Bool :=
  match pb_encode_varint buf (PB_FIELD_TAG field_num 0) with
  | (buf, false) => (buf, false)
  | (buf, true) => pb_encode_varint buf value

/-- The bytes `pb_encode_string` appends for a field. -/
def encStringBytes (f : Nat) (s : List Nat) : List Nat :=
  if s = [] then [] else varintBytes (PB_FIELD_TAG f 2) ++ (varintBytes s.length ++ s)

/-- The bytes `pb_encode_bool` appends for a field. -/
def encBoolBytes (f : Nat) (v : Bool) : List Nat :=
  varintBytes (PB_FIELD_TAG f 0) ++ varintBytes (if v then 1 else 0)

/-- The bytes `pb_encode_uint32` appends for a field. -/
def encUint32Bytes (f v : Nat) : List Nat :=
  varintBytes (PB_FIELD_TAG f 0) ++ varintBytes v

theorem pb_encode_string_chain (f : Nat) (s dataAcc : List Nat) (n pos : Nat) (err : Bool)
    (hroom : pos + (encStringBytes f s).length ≤ n) :
    pb_encode_string ⟨dataAcc, n, pos, err⟩ f s =
      (⟨dataAcc ++ encStringBytes f s, n, pos + (encStringBytes f s).length, err⟩, true) := by
  by_cases hs : s = []
  · simp [pb_encode_string, encStringBytes, hs]
  · rw [encStringBytes, if_neg hs] at hroom ⊢
    simp only [List.length_append] at hroom
    rw [pb_encode_string, if_neg hs,
      pb_encode_varint_chain (PB_FIELD_TAG f 2) dataAcc n pos err (by omega)]
    dsimp only
    rw [pb_encode_varint_chain s.length (dataAcc ++ varintBytes (PB_FIELD_TAG f 2)) n
      (pos + (varintBytes (PB_FIELD_TAG f 2)).length) err (by omega)]
    dsimp only
    rw [if_neg (by omega)]
    simp only [Prod.mk.injEq, PbBuf.mk.injEq, List.append_assoc, List.length_append,
      true_and, and_true]
    omega

theorem pb_encode_bool_chain (f : Nat) (v : Bool) (dataAcc : List Nat) (n pos : Nat)
    (err : Bool) (hroom : pos + (encBoolBytes f v).length ≤ n) :
    pb_encode_bool ⟨dataAcc, n, pos, err⟩ f v =
      (⟨dataAcc ++ encBoolBytes f v, n, pos + (encBoolBytes f v).length, err⟩, true) := by
  rw [encBoolBytes] at hroom ⊢
  simp only [List.length_append] at hroom
  rw [pb_encode_bool,
    pb_encode_varint_chain (PB_FIELD_TAG f 0) dataAcc n pos err (by omega)]
  dsimp only
  rw [pb_encode_varint_chain (if v then 1 else 0) (dataAcc ++ varintBytes (PB_FIELD_TAG f 0))
    n (pos + (varintBytes (PB_FIELD_TAG f 0)).length) err (by omega)]
  simp only [Prod.mk.injEq, PbBuf.mk.injEq, List.append_assoc, List.length_append,
    true_and, and_true]
  omega

theorem pb_encode_uint32_chain (f v : Nat) (dataAcc : List Nat) (n pos : Nat)
    (err : Bool) (hroom : pos + (encUint32Bytes f v).length ≤ n) :
    pb_encode_uint32 ⟨dataAcc, n, pos, err⟩ f v =
      (⟨dataAcc ++ encUint32Bytes f v, n, pos + (encUint32Bytes f v).length, err⟩, true) := by
  rw [encUint32Bytes] at hroom ⊢
  simp only [List.length_append] at hroom
  rw [pb_encode_uint32,
    pb_encode_varint_chain (PB_FIELD_TAG f 0) dataAcc n pos err (by omega)]
  dsimp only
  rw [pb_encode_varint_chain v (dataAcc ++ varintBytes (PB_FIELD_TAG f 0)) n
    (pos + (varintBytes (PB_FIELD_TAG f 0)).length) err (by omega)]
  simp only [Prod.mk.injEq, PbBuf.mk.injEq, List.append_assoc, List.length_append,
    true_and, and_true]
  omega

/-- `esphome_device_config_t` (esphome_api.h): C strings modelled as the
byte list before the NUL; the C buffers bound the lengths (device_name
below 128 bytes, mac_address below 24, and so on). -/
structure DeviceConfig where
  device_name : List Nat
  mac_address : List Nat
  esphome_version : List Nat
  model : List Nat
  manufacturer : List Nat
  friendly_name : List Nat
  suggested_area : List Nat
deriving DecidableEq

/-- `esphome_hello_response_t`. -/
structure HelloResponse where
  api_version_major : Nat
  api_version_minor : Nat
  server_info : List Nat
  name : List Nat
deriving DecidableEq

/-- `esphome_connect_response_t`. -/
structure ConnectResponse where
  invalid_password : Bool
deriving DecidableEq

/-- `esphome_device_info_response_t` (esphome_proto.h). -/
structure DeviceInfoResponse where
  uses_password : Bool
  name : List Nat
  mac_address : List Nat
  esphome_version : List Nat
  compilation_time : List Nat
  model : List Nat
  has_deep_sleep : Bool
  project_name : List Nat
  project_version : List Nat
  webserver_port : Nat
  manufacturer : List Nat
  friendly_name : List Nat
  bluetooth_proxy_feature_flags : Nat
  suggested_area : List Nat
  voice_assistant_feature_flags : Nat
  bluetooth_mac_address : List Nat
  api_encryption_supported : Bool
  zwave_proxy_feature_flags : Nat
  zwave_home_id : Nat
deriving DecidableEq

/-- `esphome_encode_hello_response` (esphome_proto.c:261). -/
def esphome_encode_hello_response (size : Nat) (msg : HelloResponse) : List Nat :=
  let pb := pb_buffer_init_write size
  let pb := (pb_encode_uint32 pb 1 msg.api_version_major).1
  let pb := (pb_encode_uint32 pb 2 msg.api_version_minor).1
  let pb := (pb_encode_string pb 3 msg.server_info).1
  let pb := (pb_encode_string pb 4 msg.name).1
  if pb.error then [] else pb.data

/-- The byte sequence `esphome_encode_hello_response` produces. -/
def helloBytes (msg : HelloResponse) : List Nat :=
  encUint32Bytes 1 msg.api_version_major ++
    (encUint32Bytes 2 msg.api_version_minor ++
      (encStringBytes 3 msg.server_info ++ encStringBytes 4 msg.name))

/-- `esphome_encode_connect_response` (esphome_proto.c:274). -/
def esphome_encode_connect_response (size : Nat) (msg : ConnectResponse) : List Nat :=
  let pb := pb_buffer_init_write size
  let pb := (pb_encode_bool pb 1 msg.invalid_password).1
  if pb.error then [] else pb.data

theorem esphome_encode_hello_response_eq (size : Nat) (msg : HelloResponse)
    (h : (helloBytes msg).length ≤ size) :
    esphome_encode_hello_response size msg = helloBytes msg := by
  have hlen := h
  simp only [helloBytes, List.length_append] at hlen
  unfold esphome_encode_hello_response pb_buffer_init_write
  dsimp only
  rw [pb_encode_uint32_chain 1 msg.api_version_major [] size 0 false (by omega)]
  dsimp only
  rw [pb_encode_uint32_chain 2 msg.api_version_minor _ size _ false (by omega)]
  dsimp only
  rw [pb_encode_string_chain 3 msg.server_info _ size _ false (by omega)]
  dsimp only
  rw [pb_encode_string_chain 4 msg.name _ size _ false (by omega)]
  dsimp only
  simp [helloBytes, List.append_assoc]

theorem esphome_encode_connect_response_eq (size : Nat) (msg : ConnectResponse)
    (h : (encBoolBytes 1 msg.invalid_password).length ≤ size) :
    esphome_encode_connect_response size msg = encBoolBytes 1 msg.invalid_password := by
  unfold esphome_encode_connect_response pb_buffer_init_write
  dsimp only
  rw [pb_encode_bool_chain 1 msg.invalid_password [] size 0 false (by omega)]
  dsimp only
  simp

/-- The product banner that `handle_hello_request` appends after the device
name in `server_info` via `snprintf("%s (Thingino BLE Proxy v1.0)", ...)`. -/
def serverBannerBytes : List Nat :=
  " (Thingino BLE Proxy v1.0)".data.map Char.toNat

/-- The `esphome_hello_response_t` built by `handle_hello_request`
(esphome_api.c:148): api version 1.12, `server_info` from `snprintf` into a
128-byte buffer (truncation to 127 bytes), `name` from `strncpy` with at
most 127 bytes. -/
def hello_response_of (config : DeviceConfig) : HelloResponse :=
  { api_version_major := 1
    api_version_minor := 12
    server_info := (config.device_name ++ serverBannerBytes).take 127
    name := config.device_name.take 127 }

/-- The messages `handle_hello_request` sends, as (type, payload) pairs:
the encoded HelloResponse when encoding succeeded with nonzero length. -/
def handle_hello_request (config : DeviceConfig) : List (Nat × List Nat) :=
  let bytes := esphome_encode_hello_response 512 (hello_response_of config)
  if 0 < bytes.length then [(2, bytes)] else []

/-- `client_connection_t`, restricted to the fields the handlers touch. -/
structure ClientConn where
  fd : Int
  authenticated : Bool
deriving DecidableEq

/-- `handle_connect_request` (esphome_api.c:177): ignores the payload (the
password is not even decoded), marks the session authenticated, and sends a
ConnectResponse with `invalid_password = false`. -/
def handle_connect_request (client : ClientConn) (payload : List Nat) :
    ClientConn × List (Nat × List Nat) :=
  let _ := payload
  let response : ConnectResponse := { invalid_password := false }
  let client := { client with authenticated := true }
  let bytes := esphome_encode_connect_response 32 response
  (client, if 0 < bytes.length then [(4, bytes)] else [])

theorem serverBannerBytes_length : serverBannerBytes.length = 26 := by decide

theorem encStringBytes_length_le (f : Nat) (s : List Nat) :
    (encStringBytes f s).length ≤
      (varintBytes (PB_FIELD_TAG f 2)).length + ((varintBytes s.length).length + s.length) := by
  unfold encStringBytes
  split <;> simp

/-- C5: handling a HelloReq sends exactly one HelloRes whose record has
api_version_major 1, api_version_minor 12, server_info equal to the device
name followed by the product banner, and name equal to the device name
(for device names short enough that the 128-byte buffers do not truncate,
which the `char device_name[128]` source guarantees up to the banner);
handling a ConnectReq with any payload (any password, including empty)
sends a ConnectRes encoding `invalid_password = false` (the bytes `08 00`)
and sets the session authenticated flag to true. -/
theorem hello_and_connect (config : DeviceConfig) (client : ClientConn)
    (payload : List Nat) (hname : config.device_name.length ≤ 101) :
    handle_hello_request config
      = [(2, esphome_encode_hello_response 512 (hello_response_of config))] ∧
    (hello_response_of config).api_version_major = 1 ∧
    (hello_response_of config).api_version_minor = 12 ∧
    (hello_response_of config).server_info = config.device_name ++ serverBannerBytes ∧
    (hello_response_of config).name = config.device_name ∧
    (handle_connect_request client payload).1.authenticated = true ∧
    (handle_connect_request client payload).1.fd = client.fd ∧
    (handle_connect_request client payload).2
      = [(4, esphome_encode_connect_response 32 { invalid_password := false })] ∧
    esphome_encode_connect_response 32 { invalid_password := false } = [8, 0] := by
  have hsi : (hello_response_of config).server_info
      = config.device_name ++ serverBannerBytes := by
    simp only [hello_response_of]
    apply List.take_of_length_le
    rw [List.length_append, serverBannerBytes_length]
    omega
  have hnm : (hello_response_of config).name = config.device_name := by
    simp only [hello_response_of]
    exact List.take_of_length_le (by omega)
  have htag1 : varintBytes (PB_FIELD_TAG 1 0) = [8] := by
    rw [show PB_FIELD_TAG 1 0 = 8 from by decide]
    exact varintBytes_small (by omega)
  have hv0 : varintBytes 0 = [0] := varintBytes_small (by omega)
  have hconn : esphome_encode_connect_response 32 { invalid_password := false }
      = [8, 0] := by
    rw [esphome_encode_connect_response_eq 32 _ (by simp [encBoolBytes, htag1, hv0])]
    simp [encBoolBytes, htag1, hv0]
  have hhello_len : (helloBytes (hello_response_of config)).length ≤ 512 := by
    have h3 := encStringBytes_length_le 3 (hello_response_of config).server_info
    have h4 := encStringBytes_length_le 4 (hello_response_of config).name
    have hsil : (hello_response_of config).server_info.length ≤ 127 := by
      rw [hsi, List.length_append, serverBannerBytes_length]
      omega
    have hnml : (hello_response_of config).name.length ≤ 127 := by
      rw [hnm]
      omega
    have hv3 : (varintBytes (PB_FIELD_TAG 3 2)).length = 1 := by
      rw [show PB_FIELD_TAG 3 2 = 26 from by decide, varintBytes_small (by omega)]
      rfl
    have hv4 : (varintBytes (PB_FIELD_TAG 4 2)).length = 1 := by
      rw [show PB_FIELD_TAG 4 2 = 34 from by decide, varintBytes_small (by omega)]
      rfl
    have hvs : (varintBytes (hello_response_of config).server_info.length).length = 1 := by
      rw [varintBytes_small (by omega)]
      rfl
    have hvn : (varintBytes (hello_response_of config).name.length).length = 1 := by
      rw [varintBytes_small (by omega)]
      rfl
    simp only [helloBytes, List.length_append, encUint32Bytes, hello_response_of]
    rw [htag1, show varintBytes (PB_FIELD_TAG 2 0) = [16] from by
        rw [show PB_FIELD_TAG 2 0 = 16 from by decide]
        exact varintBytes_small (by omega),
      varintBytes_small (show (1 : Nat) ≤ 127 by omega),
      varintBytes_small (show (12 : Nat) ≤ 127 by omega)]
    simp only [hello_response_of] at h3 h4 hsil hnml hvs hvn
    simp only [List.length_singleton]
    omega
  have hbytes : esphome_encode_hello_response 512 (hello_response_of config)
      = helloBytes (hello_response_of config) :=
    esphome_encode_hello_response_eq 512 _ hhello_len
  have hpos : 0 < (esphome_encode_hello_response 512 (hello_response_of config)).length := by
    rw [hbytes]
    simp only [helloBytes, List.length_append, encUint32Bytes, htag1]
    simp
  refine ⟨?_, rfl, rfl, hsi, hnm, rfl, rfl, ?_, hconn⟩
  · rw [handle_hello_request, if_pos hpos]
  · rw [handle_connect_request]
    dsimp only
    rw [if_pos (by rw [hconn]; simp)]

/-- C5 witness: the hello/connect behaviour at a concrete device config
(device name bytes `dev`) and a concrete client. -/
theorem hello_and_connect_witness :
    handle_hello_request ⟨[100, 101, 118], [65], [49], [77], [78], [70], [83]⟩
      = [(2, esphome_encode_hello_response 512
          (hello_response_of ⟨[100, 101, 118], [65], [49], [77], [78], [70], [83]⟩))] ∧
    (hello_response_of
        ⟨[100, 101, 118], [65], [49], [77], [78], [70], [83]⟩).api_version_major = 1 ∧
    (hello_response_of
        ⟨[100, 101, 118], [65], [49], [77], [78], [70], [83]⟩).api_version_minor = 12 ∧
    (hello_response_of ⟨[100, 101, 118], [65], [49], [77], [78], [70], [83]⟩).server_info
      = [100, 101, 118] ++ serverBannerBytes ∧
    (hello_response_of ⟨[100, 101, 118], [65], [49], [77], [78], [70], [83]⟩).name
      = [100, 101, 118] ∧
    (handle_connect_request ⟨3, false⟩ []).1.authenticated = true ∧
    (handle_connect_request ⟨3, false⟩ []).1.fd = (3 : Int) ∧
    (handle_connect_request ⟨3, false⟩ []).2
      = [(4, esphome_encode_connect_response 32 { invalid_password := false })] ∧
    esphome_encode_connect_response 32 { invalid_password := false } = [8, 0] :=
  hello_and_connect ⟨[100, 101, 118], [65], [49], [77], [78], [70], [83]⟩ ⟨3, false⟩ []
    (by decide)

/-- `esphome_encode_device_info_response` (esphome_proto.c:284): fields in
order, with the optional fields skipped exactly when the source skips them
(empty project strings, zero ports and feature flags, false encryption). -/
def esphome_encode_device_info_response (size : Nat) (msg : DeviceInfoResponse) :
    List Nat :=
  let pb := pb_buffer_init_write size
  let pb := (pb_encode_bool pb 1 msg.uses_password).1
  let pb := (pb_encode_string pb 2 msg.name).1
  let pb := (pb_encode_string pb 3 msg.mac_address).1
  let pb := (pb_encode_string pb 4 msg.esphome_version).1
  let pb := (pb_encode_string pb 5 msg.compilation_time).1
  let pb := (pb_encode_string pb 6 msg.model).1
  let pb := (pb_encode_bool pb 7 msg.has_deep_sleep).1
  let pb := if msg.project_name ≠ [] then (pb_encode_string pb 8 msg.project_name).1 else pb
  let pb := if msg.project_version ≠ [] then (pb_encode_string pb 9 msg.project_version).1 else pb
  let pb := if msg.webserver_port ≠ 0 then (pb_encode_uint32 pb 10 msg.webserver_port).1 else pb
  let pb := (pb_encode_string pb 12 msg.manufacturer).1
  let pb := (pb_encode_string pb 13 msg.friendly_name).1
  let pb := if msg.bluetooth_proxy_feature_flags ≠ 0 then
    (pb_encode_uint32 pb 15 msg.bluetooth_proxy_feature_flags).1 else pb
  let pb := (pb_encode_string pb 16 msg.suggested_area).1
  let pb := if msg.voice_assistant_feature_flags ≠ 0 then
    (pb_encode_uint32 pb 17 msg.voice_assistant_feature_flags).1 else pb
  let pb := (pb_encode_string pb 18 msg.bluetooth_mac_address).1
  let pb := if msg.api_encryption_supported then
    (pb_encode_bool pb 19 msg.api_encryption_supported).1 else pb
  let pb := if msg.zwave_proxy_feature_flags ≠ 0 then
    (pb_encode_uint32 pb 23 msg.zwave_proxy_feature_flags).1 else pb
  let pb := if msg.zwave_home_id ≠ 0 then
    (pb_encode_uint32 pb 24 msg.zwave_home_id).1 else pb
  if pb.error then [] else pb.data

/-- The bytes `esphome_encode_device_info_response` produces for a response
whose optional project, webserver, voice-assistant, encryption and Z-Wave
fields are absent and whose bluetooth feature flags are nonzero. -/
def deviceInfoBytesCore (msg : DeviceInfoResponse) : List Nat :=
  encBoolBytes 1 msg.uses_password ++
    (encStringBytes 2 msg.name ++
      (encStringBytes 3 msg.mac_address ++
        (encStringBytes 4 msg.esphome_version ++
          (encStringBytes 5 msg.compilation_time ++
            (encStringBytes 6 msg.model ++
              (encBoolBytes 7 msg.has_deep_sleep ++
                (encStringBytes 12 msg.manufacturer ++
                  (encStringBytes 13 msg.friendly_name ++
                    (encUint32Bytes 15 msg.bluetooth_proxy_feature_flags ++
                      (encStringBytes 16 msg.suggested_area ++
                        encStringBytes 18 msg.bluetooth_mac_address))))))))))

theorem esphome_encode_device_info_response_eq (size : Nat) (msg : DeviceInfoResponse)
    (hpn : msg.project_name = []) (hpv : msg.project_version = [])
    (hwp : msg.webserver_port = 0)
    (hbt : msg.bluetooth_proxy_feature_flags ≠ 0)
    (hva : msg.voice_assistant_feature_flags = 0)
    (hae : msg.api_encryption_supported = false)
    (hzw : msg.zwave_proxy_feature_flags = 0) (hzh : msg.zwave_home_id = 0)
    (hroom : (deviceInfoBytesCore msg).length ≤ size) :
    esphome_encode_device_info_response size msg = deviceInfoBytesCore msg := by
  have hlen := hroom
  simp only [deviceInfoBytesCore, List.length_append] at hlen
  unfold esphome_encode_device_info_response pb_buffer_init_write
  dsimp only
  simp only [hpn, hpv, hwp, hva, hae, hzw, hzh, ne_eq, not_true_eq_false,
    Bool.false_eq_true, if_false, ite_false, ite_true, hbt, not_false_eq_true, if_true]
  rw [pb_encode_bool_chain 1 msg.uses_password [] size 0 false (by omega)]
  dsimp only
  rw [pb_encode_string_chain 2 msg.name _ size _ false (by omega)]
  dsimp only
  rw [pb_encode_string_chain 3 msg.mac_address _ size _ false (by omega)]
  dsimp only
  rw [pb_encode_string_chain 4 msg.esphome_version _ size _ false (by omega)]
  dsimp only
  rw [pb_encode_string_chain 5 msg.compilation_time _ size _ false (by omega)]
  dsimp only
  rw [pb_encode_string_chain 6 msg.model _ size _ false (by omega)]
  dsimp only
  rw [pb_encode_bool_chain 7 msg.has_deep_sleep _ size _ false (by omega)]
  dsimp only
  rw [pb_encode_string_chain 12 msg.manufacturer _ size _ false (by omega)]
  dsimp only
  rw [pb_encode_string_chain 13 msg.friendly_name _ size _ false (by omega)]
  dsimp only
  rw [pb_encode_uint32_chain 15 msg.bluetooth_proxy_feature_flags _ size _ false (by omega)]
  dsimp only
  rw [pb_encode_string_chain 16 msg.suggested_area _ size _ false (by omega)]
  dsimp only
  rw [pb_encode_string_chain 18 msg.bluetooth_mac_address _ size _ false (by omega)]
  dsimp only
  simp [deviceInfoBytesCore, List.append_assoc]

/-- The `esphome_device_info_response_t` built by `handle_device_info_request`
(esphome_api.c:199) before the plugin contribution pass: the config strings
are copied with `strncpy(dst, src, sizeof(dst) - 1)` (modelled as `take`),
project info, webserver port, feature flags, encryption and Z-Wave fields are
zeroed, and `compilation_time` holds the build timestamp. -/
def device_info_response_of (config : DeviceConfig) (compTime : List Nat) :
    DeviceInfoResponse :=
  { uses_password := false
    name := config.device_name.take 127
    mac_address := config.mac_address.take 23
    esphome_version := config.esphome_version.take 31
    compilation_time := compTime.take 63
    model := config.model.take 127
    has_deep_sleep := false
    project_name := []
    project_version := []
    webserver_port := 0
    manufacturer := config.manufacturer.take 127
    friendly_name := config.friendly_name.take 127
    bluetooth_proxy_feature_flags := 0
    suggested_area := config.suggested_area.take 63
    voice_assistant_feature_flags := 0
    bluetooth_mac_address := []
    api_encryption_supported := false
    zwave_proxy_feature_flags := 0
    zwave_home_id := 0 }

/-- `bluetooth_proxy_configure_device_info`
(bluetooth_proxy_plugin.c:239): sets the feature flags to
`BLE_FEATURE_PASSIVE_SCAN | BLE_FEATURE_RAW_ADVERTISEMENTS` and copies the
config MAC string into `bluetooth_mac_address` with `strncpy` (23 bytes). -/
def bluetooth_proxy_configure_device_info (config : DeviceConfig)
    (di : DeviceInfoResponse) : DeviceInfoResponse :=
  { di with
    bluetooth_proxy_feature_flags := 1 <<< 0 ||| 1 <<< 5
    bluetooth_mac_address := config.mac_address.take 23 }

/-- The messages `handle_device_info_request` sends.  The plugin contribution
pass `esphome_plugin_configure_device_info_all` is instantiated with the one
registered plugin, `bluetooth_proxy_plugin`. -/
def handle_device_info_request (config : DeviceConfig) (compTime : List Nat) :
    List (Nat × List Nat) :=
  let response := bluetooth_proxy_configure_device_info config
      (device_info_response_of config compTime)
  let bytes := esphome_encode_device_info_response 1024 response
  if 0 < bytes.length then [(10, bytes)] else []

theorem encBoolBytes_length_le3 (f : Nat) (v : Bool)
    (hf : PB_FIELD_TAG f 0 < 2 ^ 14) : (encBoolBytes f v).length ≤ 3 := by
  unfold encBoolBytes
  rw [List.length_append]
  have h1 := varintBytes_length_le 1 _ hf
  have h2 : (varintBytes (if v then 1 else 0)).length = 1 := by
    cases v
    · rw [if_neg (by simp), varintBytes_small (by omega)]
      rfl
    · rw [if_pos rfl, varintBytes_small (by omega)]
      rfl
  omega

theorem encStringBytes_length_le3 (f : Nat) (s : List Nat)
    (hf : PB_FIELD_TAG f 2 < 2 ^ 14) (hs : s.length ≤ 127) :
    (encStringBytes f s).length ≤ 3 + s.length := by
  unfold encStringBytes
  split
  · simp
  · rw [List.length_append, List.length_append]
    have h1 := varintBytes_length_le 1 _ hf
    have h2 : (varintBytes s.length).length = 1 := by
      rw [varintBytes_small hs]
      rfl
    omega

/-- C6: after the BLE plugin contributes to a DeviceInfoReq, the encoded
DeviceInfoRes contains field 15 (bluetooth_proxy_feature_flags) equal to
`0x21` (bit 0 passive_scan and bit 5 raw_advertisements, wire bytes
`78 21`) and field 18 (bluetooth_mac_address) equal to the device config's
MAC string (wire bytes `92 01`, a length byte, then the MAC bytes). -/
theorem device_info_bluetooth_fields (config : DeviceConfig) (compTime : List Nat)
    (hmac_ne : config.mac_address ≠ []) (hmac_len : config.mac_address.length ≤ 23) :
    ∃ pre mid post,
      esphome_encode_device_info_response 1024
          (bluetooth_proxy_configure_device_info config
            (device_info_response_of config compTime))
        = pre ++ (encUint32Bytes 15 0x21 ++
            (mid ++ (encStringBytes 18 config.mac_address ++ post))) ∧
      encUint32Bytes 15 0x21 = [0x78, 0x21] ∧
      encStringBytes 18 config.mac_address
        = 0x92 :: (0x01 :: (config.mac_address.length :: config.mac_address)) ∧
      (bluetooth_proxy_configure_device_info config
          (device_info_response_of config compTime)).bluetooth_proxy_feature_flags
        = 0x21 ∧
      (bluetooth_proxy_configure_device_info config
          (device_info_response_of config compTime)).bluetooth_mac_address
        = config.mac_address := by
  have hmtake : config.mac_address.take 23 = config.mac_address :=
    List.take_of_length_le hmac_len
  set M := bluetooth_proxy_configure_device_info config
    (device_info_response_of config compTime) with hMdef
  have hM15 : M.bluetooth_proxy_feature_flags = 0x21 := by
    rw [hMdef]
    simp only [bluetooth_proxy_configure_device_info]
    decide
  have hM18 : M.bluetooth_mac_address = config.mac_address := by
    rw [hMdef]
    simp only [bluetooth_proxy_configure_device_info]
    exact hmtake
  have htake127 : ∀ l : List Nat, (l.take 127).length ≤ 127 :=
    fun l => List.length_take_le 127 l
  have hroom : (deviceInfoBytesCore M).length ≤ 1024 := by
    rw [hMdef]
    simp only [deviceInfoBytesCore, bluetooth_proxy_configure_device_info,
      device_info_response_of, List.length_append]
    have h1 := encBoolBytes_length_le3 1 false (by decide)
    have h2 := encStringBytes_length_le3 2 (config.device_name.take 127) (by decide)
      (htake127 _)
    have h3 := encStringBytes_length_le3 3 (config.mac_address.take 23) (by decide)
      (le_trans (List.length_take_le 23 _) (by omega))
    have h4 := encStringBytes_length_le3 4 (config.esphome_version.take 31) (by decide)
      (le_trans (List.length_take_le 31 _) (by omega))
    have h5 := encStringBytes_length_le3 5 (compTime.take 63) (by decide)
      (le_trans (List.length_take_le 63 _) (by omega))
    have h6 := encStringBytes_length_le3 6 (config.model.take 127) (by decide)
      (htake127 _)
    have h7 := encBoolBytes_length_le3 7 false (by decide)
    have h12 := encStringBytes_length_le3 12 (config.manufacturer.take 127) (by decide)
      (htake127 _)
    have h13 := encStringBytes_length_le3 13 (config.friendly_name.take 127) (by decide)
      (htake127 _)
    have h15 : (encUint32Bytes 15 (1 <<< 0 ||| 1 <<< 5)).length = 2 := by
      rw [encUint32Bytes, show PB_FIELD_TAG 15 0 = 120 from by decide,
        show (1 <<< 0 ||| 1 <<< 5 : Nat) = 33 from by decide,
        varintBytes_small (show (120 : Nat) ≤ 127 by omega),
        varintBytes_small (show (33 : Nat) ≤ 127 by omega)]
      rfl
    have h16 := encStringBytes_length_le3 16 (config.suggested_area.take 63) (by decide)
      (le_trans (List.length_take_le 63 _) (by omega))
    have h18 := encStringBytes_length_le3 18 (config.mac_address.take 23) (by decide)
      (le_trans (List.length_take_le 23 _) (by omega))
    have ht127a := List.length_take_le 127 config.device_name
    have ht23 := List.length_take_le 23 config.mac_address
    have ht31 := List.length_take_le 31 config.esphome_version
    have ht63 := List.length_take_le 63 compTime
    have ht127b := List.length_take_le 127 config.model
    have ht127c := List.length_take_le 127 config.manufacturer
    have ht127d := List.length_take_le 127 config.friendly_name
    have ht63b := List.length_take_le 63 config.suggested_area
    omega
  have hcore := esphome_encode_device_info_response_eq 1024 M rfl rfl rfl
    (by rw [hM15]; decide) rfl rfl rfl rfl hroom
  rw [hcore]
  refine ⟨encBoolBytes 1 M.uses_password ++ (encStringBytes 2 M.name ++
      (encStringBytes 3 M.mac_address ++ (encStringBytes 4 M.esphome_version ++
        (encStringBytes 5 M.compilation_time ++ (encStringBytes 6 M.model ++
          (encBoolBytes 7 M.has_deep_sleep ++ (encStringBytes 12 M.manufacturer ++
            encStringBytes 13 M.friendly_name))))))),
    encStringBytes 16 M.suggested_area, [], ?_, ?_, ?_, hM15, hM18⟩
  · rw [deviceInfoBytesCore, hM15, hM18]
    simp [List.append_assoc]
  · rw [encUint32Bytes, show PB_FIELD_TAG 15 0 = 120 from by decide,
      varintBytes_small (show (120 : Nat) ≤ 127 by omega),
      varintBytes_small (show (0x21 : Nat) ≤ 127 by omega)]
    rfl
  · rw [encStringBytes, if_neg hmac_ne, show PB_FIELD_TAG 18 2 = 146 from by decide,
      show varintBytes 146 = [146, 1] from by simp [varintBytes],
      varintBytes_small (show config.mac_address.length ≤ 127 by omega)]
    simp

/-- C6 witness: the device-info encoding facts at a concrete config whose
MAC string is the two bytes `AB`. -/
theorem device_info_bluetooth_fields_witness :
    ∃ pre mid post,
      esphome_encode_device_info_response 1024
          (bluetooth_proxy_configure_device_info
            ⟨[100], [65, 66], [49], [77], [78], [70], [83]⟩
            (device_info_response_of
              ⟨[100], [65, 66], [49], [77], [78], [70], [83]⟩ [50]))
        = pre ++ (encUint32Bytes 15 0x21 ++
            (mid ++ (encStringBytes 18 [65, 66] ++ post))) ∧
      encUint32Bytes 15 0x21 = [0x78, 0x21] ∧
      encStringBytes 18 [65, 66]
        = 0x92 :: (0x01 :: (([65, 66] : List Nat).length :: [65, 66])) ∧
      (bluetooth_proxy_configure_device_info
          ⟨[100], [65, 66], [49], [77], [78], [70], [83]⟩
          (device_info_response_of
            ⟨[100], [65, 66], [49], [77], [78], [70], [83]⟩
            [50])).bluetooth_proxy_feature_flags = 0x21 ∧
      (bluetooth_proxy_configure_device_info
          ⟨[100], [65, 66], [49], [77], [78], [70], [83]⟩
          (device_info_response_of
            ⟨[100], [65, 66], [49], [77], [78], [70], [83]⟩
            [50])).bluetooth_mac_address = [65, 66] :=
  device_info_bluetooth_fields ⟨[100], [65, 66], [49], [77], [78], [70], [83]⟩ [50]
    (by decide) (by decide)

/-- The registered plugin hooks that `dispatch_message` reaches through the
plugin registry (`esphome_plugin_handle_message`,
`esphome_plugin_list_entities_all`, `esphome_plugin_subscribe_states_all`).
`handle_message` returns whether some plugin claimed the message; the sends
the plugin hooks perform go through the server facade and are recorded as
the fixed send lists. -/
structure PluginHooks where
  handle_message : Nat → List Nat → Bool
  list_entities_sends : List (Nat × List Nat)
  subscribe_states_sends : List (Nat × List Nat)

/-- `dispatch_message` (esphome_api.c:354): the switch over the message
type.  The DISCONNECT_REQUEST case (type 5) only logs
`Client requested disconnect` and falls through: no state change, no close,
no response.  Returns the updated client and the (type, payload) frames the
core handlers send on this session. -/
def dispatch_message (hooks : PluginHooks) (config : DeviceConfig) (compTime : List Nat)
    (client : ClientConn) (msg_type : Nat) (payload : List Nat) :
    ClientConn × List (Nat × List Nat) :=
  if msg_type = 1 then (client, handle_hello_request config)
  else if msg_type = 3 then handle_connect_request client payload
  else if msg_type = 9 then (client, handle_device_info_request config compTime)
  else if msg_type = 11 then (client, hooks.list_entities_sends ++ [(19, [])])
  else if msg_type = 20 then (client, hooks.subscribe_states_sends)
  else if msg_type = 34 then (client, [])
  else if msg_type = 38 then (client, [])
  else if msg_type = 7 then (client, [(8, [])])
  else if msg_type = 5 then (client, [])
  else
    let _ := hooks.handle_message msg_type payload
    (client, [])

/-- The frame-parsing loop of `handle_client_data` (esphome_api.c:404) with
an explicit fuel bound on the number of iterations (each iteration consumes
at least three bytes, so `buffer.length` fuel is always enough).  Returns
the client state, the remaining buffered bytes after the `memmove`
compaction, and the frames sent while dispatching. -/
def handle_client_data_go (hooks : PluginHooks) (config : DeviceConfig)
    (compTime : List Nat) :
    Nat → ClientConn → List Nat → ClientConn × List Nat × List (Nat × List Nat)
  | 0, client, buffer => (client, buffer, [])
  | fuel + 1, client, buffer =>
    match esphome_decode_frame_header buffer with
    | none => (client, buffer, [])
    | some (hlen, mlen, _mtype) =>
      if buffer.length < hlen + mlen then (client, buffer, [])
      else
        let payload := (buffer.drop hlen).take mlen
        let out := dispatch_message hooks config compTime client _mtype payload
        let next := handle_client_data_go hooks config compTime fuel out.1
          (buffer.drop (hlen + mlen))
        (next.1, next.2.1, out.2 ++ next.2.2)

/-- `handle_client_data` on a freshly filled receive buffer. -/
def handle_client_data (hooks : PluginHooks) (config : DeviceConfig)
    (compTime : List Nat) (client : ClientConn) (buffer : List Nat) :
    ClientConn × List Nat × List (Nat × List Nat) :=
  handle_client_data_go hooks config compTime buffer.length client buffer

theorem decode_frame_header_empty_type5 (r : List Nat) :
    esphome_decode_frame_header (0 :: 0 :: 5 :: r) = some (3, 0, 5) := by
  have h0 : varintBytes 0 = [0] := varintBytes_small (by omega)
  have h5 : varintBytes 5 = [5] := varintBytes_small (by omega)
  have h := frame_header_decode_spec 0 5 r (by rw [h0]; simp) (by rw [h5]; simp)
    (by simp)
  rw [h0, h5] at h
  simpa using h

theorem decode_frame_header_empty_type7 (r : List Nat) :
    esphome_decode_frame_header (0 :: 0 :: 7 :: r) = some (3, 0, 7) := by
  have h0 : varintBytes 0 = [0] := varintBytes_small (by omega)
  have h7 : varintBytes 7 = [7] := varintBytes_small (by omega)
  have h := frame_header_decode_spec 0 7 r (by rw [h0]; simp) (by rw [h7]; simp)
    (by simp)
  rw [h0, h7] at h
  simpa using h

/-- C4 is a code bug: the claim (and the spec state machine,
`DisconnectReq (any state) -> close`) says dispatching a DisconnectReq
closes the session, but `dispatch_message` only logs it.  This theorem
shows what the code actually does: dispatching type 5 returns the client
unchanged (the fd is not invalidated, the slot is not emptied) and sends
nothing, the receive loop simply skips the disconnect frame and keeps
processing, and a PingReq frame arriving after a DisconnectReq frame in the
same buffer is still answered with a PingRes. -/
theorem dispatch_disconnect_leaves_session_open (hooks : PluginHooks)
    (config : DeviceConfig) (compTime : List Nat) (client : ClientConn)
    (payload : List Nat) (fuel : Nat) (rest : List Nat) :
    dispatch_message hooks config compTime client 5 payload = (client, []) ∧
    handle_client_data_go hooks config compTime (fuel + 1) client ([0, 0, 5] ++ rest)
      = handle_client_data_go hooks config compTime fuel client rest ∧
    handle_client_data hooks config compTime client [0, 0, 5, 0, 0, 7]
      = (client, [], [(8, [])]) := by
  have hdisp : ∀ p : List Nat,
      dispatch_message hooks config compTime client 5 p = (client, []) := by
    intro p
    rfl
  have hstep : ∀ (f : Nat) (c : ClientConn) (r : List Nat),
      handle_client_data_go hooks config compTime (f + 1) c (0 :: 0 :: 5 :: r)
        = handle_client_data_go hooks config compTime f c r := by
    intro f c r
    rw [handle_client_data_go, decode_frame_header_empty_type5 r]
    try dsimp only
    rw [if_neg (by simp)]
    try dsimp only
    rw [show dispatch_message hooks config compTime c 5
        (((0 :: 0 :: 5 :: r).drop 3).take 0) = (c, []) from rfl]
    try dsimp only
    rw [show (0 :: 0 :: 5 :: r).drop (3 + 0) = r from rfl]
    simp
  refine ⟨hdisp payload, by simpa using hstep fuel client rest, ?_⟩
  rw [handle_client_data]
  rw [show ([0, 0, 5, 0, 0, 7] : List Nat).length = 5 + 1 from rfl]
  rw [show ([0, 0, 5, 0, 0, 7] : List Nat) = 0 :: 0 :: 5 :: [0, 0, 7] from rfl,
    hstep 5 client [0, 0, 7]]
  rw [handle_client_data_go, decode_frame_header_empty_type7 []]
  try dsimp only
  rw [if_neg (by simp)]
  try dsimp only
  rw [show dispatch_message hooks config compTime client 7
      (((0 :: 0 :: 7 :: ([] : List Nat)).drop 3).take 0) = (client, [(8, [])]) from rfl]
  try dsimp only
  rw [show (0 :: 0 :: 7 :: ([] : List Nat)).drop (3 + 0) = [] from rfl]
  rw [show handle_client_data_go hooks config compTime 4 client []
      = (client, [], []) from by
    rw [handle_client_data_go]
    rw [show esphome_decode_frame_header ([] : List Nat) = none from rfl]]
  simp

/-- `ble_advertisement_t` (ble_scanner.h): the canonical advertisement the
scanner callback delivers. -/
structure ScannerAdvert where
  address : List Nat
  address_type : Nat
  rssi : Int
  data : List Nat
deriving DecidableEq

/-- `esphome_ble_advertisement_t`: one advertisement as queued in the
plugin batch. -/
structure BleAdvert where
  address : Nat
  rssi : Int
  address_type : Nat
  data : List Nat
deriving DecidableEq

/-- `mac_to_uint64` (bluetooth_proxy_plugin.c:52): big-endian packing,
`result |= mac[i] << ((5 - i) * 8)`. -/
def mac_to_uint64 (mac : List Nat) : Nat :=
  mac.getD 0 0 <<< 40 ||| mac.getD 1 0 <<< 32 ||| mac.getD 2 0 <<< 24 |||
    mac.getD 3 0 <<< 16 ||| mac.getD 4 0 <<< 8 ||| mac.getD 5 0 <<< 0

/-- The batch record `on_ble_advertisement` builds from a scanner event:
the MAC packed big-endian and the data copied up to
`sizeof(pb_adv->data) = 62` bytes. -/
def mkBatchAdvert (a : ScannerAdvert) : BleAdvert :=
  { address := mac_to_uint64 a.address
    rssi := a.rssi
    address_type := a.address_type
    data := a.data.take 62 }

/-- The plugin batch state (`esphome_ble_advertisements_response_t` plus its
count); `batch.length` is the count, capacity 16. -/
structure BatchState where
  batch : List BleAdvert
deriving DecidableEq

/-- `flush_ble_batch` (bluetooth_proxy_plugin.c:63): nothing to do on an
empty batch; otherwise the batch is encoded, broadcast, and reset.  The
emitted record batch is returned (the wire encoding and the broadcast to
each connected session are performed by `esphome_encode_ble_advertisements`
and `esphome_plugin_send_message` on these records). -/
def flush_ble_batch (st : BatchState) : BatchState × List (List BleAdvert) :=
  if st.batch = [] then (st, [])
  else ({ batch := [] }, [st.batch])

/-- `on_ble_advertisement` (bluetooth_proxy_plugin.c:133): flush first when
the batch already holds `BLE_MAX_ADV_BATCH = 16` records, append the new
record, then flush immediately when the batch has reached 16. -/
def on_ble_advertisement (st : BatchState) (a : ScannerAdvert) :
    BatchState × List (List BleAdvert) :=
  let pre := if 16 ≤ st.batch.length then flush_ble_batch st else (st, [])
  let st1 : BatchState := { batch := pre.1.batch ++ [mkBatchAdvert a] }
  let post := if 16 ≤ st1.batch.length then flush_ble_batch st1 else (st1, [])
  (post.1, pre.2 ++ post.2)

/-- `cached_device_t` (ble_scanner.c:38): one cache slot; the D-Bus object
path is the lookup key, the empty path marks an empty slot. -/
structure CachedDevice where
  path : List Nat
  address : List Nat
  address_type : Nat
  rssi : Int
  data : List Nat
  has_address : Bool
  has_rssi : Bool
  last_seen : Nat
deriving DecidableEq

/-- A zeroed cache slot (`memset(device, 0, sizeof(cached_device_t))`). -/
def emptyDevice : CachedDevice :=
  { path := []
    address := List.replicate 6 0
    address_type := 0
    rssi := 0
    data := []
    has_address := false
    has_rssi := false
    last_seen := 0 }

/-- The lookup loop of `get_or_create_cached_device` (ble_scanner.c:86):
first slot with a nonempty path equal to the key. -/
def find_existing : List CachedDevice → List Nat → Nat → Option Nat
  | [], _, _ => none
  | d :: rest, path, i =>
    if d.path ≠ [] ∧ d.path = path then some i
    else find_existing rest path (i + 1)

/-- The victim-selection loop of `get_or_create_cached_device`
(ble_scanner.c:95): the first empty slot, else the slot with the smallest
`last_seen` (first occurrence on ties, by the strict comparison). -/
def select_victim_go : List CachedDevice → Nat → Nat → Nat → Nat
  | [], _, best, _ => best
  | d :: rest, i, best, bestSeen =>
    if d.path = [] then i
    else if d.last_seen < bestSeen then select_victim_go rest (i + 1) i d.last_seen
    else select_victim_go rest (i + 1) best bestSeen

/-- `oldest` starts at slot 0 (`&scanner->device_cache[0]`). -/
def select_victim (cache : List CachedDevice) : Nat :=
  select_victim_go cache 0 0 ((cache.headD emptyDevice).last_seen)

/-- `get_or_create_cached_device` (ble_scanner.c:82): return the existing
slot for the path, else reinitialize the selected victim slot with the new
path (`strncpy` keeps at most 127 path bytes) and the current timestamp. -/
def get_or_create_cached_device (cache : List CachedDevice) (path : List Nat)
    (now : Nat) : List CachedDevice × Nat :=
  match find_existing cache path 0 with
  | some i => (cache, i)
  | none =>
    let j := select_victim cache
    (cache.set j { emptyDevice with path := path.take 127, last_seen := now }, j)

/-- `cleanup_stale_devices` (ble_scanner.c:382): zero every occupied slot
whose `last_seen` is older than `now - DEVICE_TIMEOUT_MS` (uint64
subtraction, hence the wraparound modulo `2 ^ 64`). -/
def cleanup_stale_devices (now : Nat) (cache : List CachedDevice) :
    List CachedDevice :=
  let threshold := (now + 2 ^ 64 - 60000) % 2 ^ 64
  cache.map fun d => if d.path ≠ [] ∧ d.last_seen < threshold then emptyDevice else d

/-- The advertisement built from a cache slot by `report_timer_callback`. -/
def advert_of_device (d : CachedDevice) : ScannerAdvert :=
  { address := d.address
    address_type := d.address_type
    rssi := d.rssi
    data := d.data }

/-- The reporting loop of `report_timer_callback` (ble_scanner.c:424): every
slot that is occupied and has both an address and an RSSI is delivered to
the callback (`on_ble_advertisement`), in slot order; `acc` accumulates the
emitted batches. -/
def report_devices_go : List CachedDevice → BatchState → List (List BleAdvert) →
    BatchState × List (List BleAdvert)
  | [], st, acc => (st, acc)
  | d :: rest, st, acc =>
    if d.path = [] ∨ d.has_address = false ∨ d.has_rssi = false then
      report_devices_go rest st acc
    else
      let out := on_ble_advertisement st (advert_of_device d)
      report_devices_go rest out.1 (acc ++ out.2)

/-- The reporting loop, started with an empty emission list. -/
def report_devices (cache : List CachedDevice) (st : BatchState) :
    BatchState × List (List BleAdvert) :=
  report_devices_go cache st []

/-- `report_timer_callback` (ble_scanner.c:410): stale cleanup, then report
all complete cache entries through the batching callback.  Returns the
cache after cleanup, the batch state after the tick, and the batches
emitted during the tick. -/
def report_timer_callback (now : Nat) (cache : List CachedDevice)
    (st : BatchState) : List CachedDevice × BatchState × List (List BleAdvert) :=
  let cache1 := cleanup_stale_devices now cache
  let out := report_devices cache1 st
  (cache1, out.1, out.2)

/-- The records of the cache entries that are valid (complete) at flush
start, in slot order. -/
def valid_records : List CachedDevice → List BleAdvert
  | [] => []
  | d :: rest =>
    if d.path = [] ∨ d.has_address = false ∨ d.has_rssi = false then
      valid_records rest
    else mkBatchAdvert (advert_of_device d) :: valid_records rest

theorem on_ble_advertisement_accounting (st : BatchState) (a : ScannerAdvert)
    (h : st.batch.length ≤ 16) :
    ((on_ble_advertisement st a).2).flatten ++ (on_ble_advertisement st a).1.batch
      = st.batch ++ [mkBatchAdvert a] ∧
    (on_ble_advertisement st a).1.batch.length ≤ 16 ∧
    (∀ b ∈ (on_ble_advertisement st a).2, b.length ≤ 16) := by
  by_cases hfull : 16 ≤ st.batch.length
  · have h16 : st.batch.length = 16 := by omega
    have hne : st.batch ≠ [] := by
      intro hcon
      rw [hcon] at h16
      simp at h16
    have hres : on_ble_advertisement st a
        = ({ batch := [mkBatchAdvert a] }, [st.batch]) := by
      unfold on_ble_advertisement flush_ble_batch
      rw [if_pos hfull, if_neg hne]
      dsimp only
      rw [if_neg (by simp)]
      simp
    rw [hres]
    refine ⟨by simp, by simp, ?_⟩
    intro b hb
    simp only [List.mem_singleton] at hb
    rw [hb]
    omega
  · by_cases hreach : 16 ≤ st.batch.length + 1
    · have hres : on_ble_advertisement st a
          = ({ batch := [] }, [st.batch ++ [mkBatchAdvert a]]) := by
        unfold on_ble_advertisement flush_ble_batch
        rw [if_neg hfull]
        dsimp only
        rw [if_pos (by simpa using hreach), if_neg (by simp)]
        simp
      rw [hres]
      refine ⟨by simp, by simp, ?_⟩
      intro b hb
      simp only [List.mem_singleton] at hb
      rw [hb]
      simp only [List.length_append, List.length_singleton]
      omega
    · have hres : on_ble_advertisement st a
          = ({ batch := st.batch ++ [mkBatchAdvert a] }, []) := by
        unfold on_ble_advertisement flush_ble_batch
        rw [if_neg hfull]
        dsimp only
        rw [if_neg (by simpa using hreach)]
        simp
      rw [hres]
      refine ⟨by simp, ?_, by simp⟩
      simp only [List.length_append, List.length_singleton]
      omega

theorem report_devices_go_accounting :
    ∀ (cache : List CachedDevice) (st : BatchState) (acc : List (List BleAdvert)),
      st.batch.length ≤ 16 →
      ((report_devices_go cache st acc).2).flatten
          ++ (report_devices_go cache st acc).1.batch
        = acc.flatten ++ (st.batch ++ valid_records cache) ∧
      (report_devices_go cache st acc).1.batch.length ≤ 16 ∧
      (∀ b ∈ (report_devices_go cache st acc).2, b ∈ acc ∨ b.length ≤ 16) := by
  intro cache
  induction cache with
  | nil =>
    intro st acc hst
    unfold report_devices_go
    rw [valid_records]
    exact ⟨by simp, hst, fun b hb => Or.inl hb⟩
  | cons d rest ih =>
    intro st acc hst
    by_cases hskip : d.path = [] ∨ d.has_address = false ∨ d.has_rssi = false
    · rw [report_devices_go, if_pos hskip]
      obtain ⟨h1, h2, h3⟩ := ih st acc hst
      refine ⟨?_, h2, h3⟩
      rw [show valid_records (d :: rest) = valid_records rest from by
        rw [valid_records, if_pos hskip]]
      exact h1
    · rw [report_devices_go, if_neg hskip]
      dsimp only
      obtain ⟨ha1, ha2, ha3⟩ := on_ble_advertisement_accounting st (advert_of_device d) hst
      obtain ⟨h1, h2, h3⟩ := ih (on_ble_advertisement st (advert_of_device d)).1
        (acc ++ (on_ble_advertisement st (advert_of_device d)).2) ha2
      refine ⟨?_, h2, ?_⟩
      · rw [h1, List.flatten_append,
          show valid_records (d :: rest)
              = mkBatchAdvert (advert_of_device d) :: valid_records rest from by
            rw [valid_records, if_neg hskip],
          List.append_assoc, ← List.append_assoc
            ((on_ble_advertisement st (advert_of_device d)).2.flatten), ha1]
        simp [List.append_assoc]
      · intro b hb
        rcases h3 b hb with hmem | hlen
        · rcases List.mem_append.mp hmem with hacc | hout
          · exact Or.inl hacc
          · exact Or.inr (ha3 b hout)
        · exact Or.inr hlen

/-- C7 (amended): every batch published during a periodic report tick
contains at most 16 advertisement records, and the batches emitted within
the tick together with the records left pending in the plugin batch at the
end of the tick account for exactly the pending records at tick start
followed by every cache entry that was valid at flush start (in slot
order).  The pending remainder (fewer than 16 records) is not emitted
within the tick itself; it is published by the periodic flush thread. -/
theorem batcher_tick_accounting (now : Nat) (cache : List CachedDevice)
    (st : BatchState) (hst : st.batch.length ≤ 16) :
    (∀ b ∈ (report_timer_callback now cache st).2.2, b.length ≤ 16) ∧
    ((report_timer_callback now cache st).2.2).flatten
        ++ (report_timer_callback now cache st).2.1.batch
      = st.batch ++ valid_records (cleanup_stale_devices now cache) := by
  obtain ⟨h1, h2, h3⟩ := report_devices_go_accounting
    (cleanup_stale_devices now cache) st [] hst
  unfold report_timer_callback report_devices
  refine ⟨?_, by simpa using h1⟩
  intro b hb
  rcases h3 b hb with hmem | hlen
  · simp at hmem
  · exact hlen

/-- A complete (valid) cache entry used to exercise the report tick. -/
def mkTestDevice (i : Nat) : CachedDevice :=
  { path := [1, i]
    address := [0, 0, 0, 0, 0, i]
    address_type := 0
    rssi := -50
    data := []
    has_address := true
    has_rssi := true
    last_seen := 100000 }

/-- A full 64-slot cache holding 17 valid entries and 47 empty slots. -/
def testCache17 : List CachedDevice :=
  (List.range 17).map mkTestDevice ++ List.replicate 47 emptyDevice

/-- C7 (counterexample): with 17 valid cache entries at flush start and an
empty plugin batch, the tick emits a single batch of 16 records; the
seventeenth record is left pending in the plugin batch and is not contained
in the concatenation of the batches emitted during the tick, contradicting
the claim that the emitted batches drain every entry valid at flush start
within the same tick. -/
theorem batcher_tick_drops_remainder :
    (valid_records (cleanup_stale_devices 100000 testCache17)).length = 17 ∧
    (report_timer_callback 100000 testCache17 (BatchState.mk [])).2.2.map
        List.length = [16] ∧
    mkBatchAdvert (advert_of_device (mkTestDevice 16)) ∉
      ((report_timer_callback 100000 testCache17 (BatchState.mk [])).2.2).flatten := by
  decide

/-- Witness for `batcher_tick_accounting` at the empty cache and empty
pending batch. -/
theorem batcher_tick_accounting_witness :
    (BatchState.mk []).batch.length ≤ 16 ∧
    ((∀ b ∈ (report_timer_callback 0 [] (BatchState.mk [])).2.2, b.length ≤ 16) ∧
     ((report_timer_callback 0 [] (BatchState.mk [])).2.2).flatten
        ++ (report_timer_callback 0 [] (BatchState.mk [])).2.1.batch
      = (BatchState.mk []).batch ++ valid_records (cleanup_stale_devices 0 [])) :=
  ⟨by decide, batcher_tick_accounting 0 [] (BatchState.mk []) (by decide)⟩

theorem select_victim_go_spec :
    ∀ (l : List CachedDevice) (i best bestSeen : Nat),
      (∀ d ∈ l, d.path ≠ []) →
      (select_victim_go l i best bestSeen = best ∧
        ∀ k, k < l.length → bestSeen ≤ (l.getD k emptyDevice).last_seen) ∨
      (∃ k, k < l.length ∧
        select_victim_go l i best bestSeen = i + k ∧
        (l.getD k emptyDevice).last_seen < bestSeen ∧
        ∀ m, m < l.length →
          (l.getD k emptyDevice).last_seen ≤ (l.getD m emptyDevice).last_seen) := by
  intro l
  induction l with
  | nil =>
    intro i best bestSeen _
    left
    exact ⟨rfl, fun k hk => absurd hk (by simp)⟩
  | cons d rest ih =>
    intro i best bestSeen hp
    have hd : d.path ≠ [] := hp d (List.mem_cons_self d rest)
    have hp2 : ∀ x ∈ rest, x.path ≠ [] := fun x hx => hp x (List.mem_cons_of_mem d hx)
    rw [select_victim_go, if_neg hd]
    by_cases hlt : d.last_seen < bestSeen
    · rw [if_pos hlt]
      rcases ih (i + 1) i d.last_seen hp2 with ⟨hres, hmin⟩ | ⟨k, hk, hres, hklt, hkmin⟩
      · right
        refine ⟨0, by simp, by simpa using hres, by simpa using hlt, ?_⟩
        intro m hm
        cases m with
        | zero => simp
        | succ m =>
          rw [List.getD_cons_zero, List.getD_cons_succ]
          exact hmin m (by simp only [List.length_cons] at hm; omega)
      · right
        refine ⟨k + 1, by simp only [List.length_cons]; omega, ?_, ?_, ?_⟩
        · rw [hres]; omega
        · rw [List.getD_cons_succ]
          exact lt_trans hklt hlt
        · intro m hm
          cases m with
          | zero =>
            rw [List.getD_cons_succ, List.getD_cons_zero]
            exact le_of_lt hklt
          | succ m =>
            rw [List.getD_cons_succ, List.getD_cons_succ]
            exact hkmin m (by simp only [List.length_cons] at hm; omega)
    · rw [if_neg hlt]
      rcases ih (i + 1) best bestSeen hp2 with ⟨hres, hmin⟩ | ⟨k, hk, hres, hklt, hkmin⟩
      · left
        refine ⟨hres, ?_⟩
        intro k hk
        cases k with
        | zero => rw [List.getD_cons_zero]; omega
        | succ k =>
          rw [List.getD_cons_succ]
          exact hmin k (by simp only [List.length_cons] at hk; omega)
      · right
        refine ⟨k + 1, by simp only [List.length_cons]; omega, ?_, ?_, ?_⟩
        · rw [hres]; omega
        · rw [List.getD_cons_succ]; exact hklt
        · intro m hm
          cases m with
          | zero =>
            rw [List.getD_cons_succ, List.getD_cons_zero]
            exact le_trans (le_of_lt hklt) (by omega)
          | succ m =>
            rw [List.getD_cons_succ, List.getD_cons_succ]
            exact hkmin m (by simp only [List.length_cons] at hm; omega)

theorem select_victim_spec (cache : List CachedDevice)
    (hne : cache ≠ []) (hocc : ∀ d ∈ cache, d.path ≠ []) :
    select_victim cache < cache.length ∧
    ∀ m, m < cache.length →
      (cache.getD (select_victim cache) emptyDevice).last_seen
        ≤ (cache.getD m emptyDevice).last_seen := by
  cases cache with
  | nil => exact absurd rfl hne
  | cons d rest =>
    rcases select_victim_go_spec (d :: rest) 0 0 d.last_seen hocc with
      ⟨hres, hmin⟩ | ⟨k, hk, hres, _, hkmin⟩
    · have hsv : select_victim (d :: rest) = 0 := by
        unfold select_victim
        simpa using hres
      rw [hsv]
      refine ⟨by simp, ?_⟩
      intro m hm
      cases m with
      | zero => simp
      | succ m =>
        rw [List.getD_cons_zero, List.getD_cons_succ]
        have := hmin (m + 1) hm
        simpa using this
    · have hsv : select_victim (d :: rest) = k := by
        unfold select_victim
        simp only [List.headD_cons]
        rw [hres]
        omega
      rw [hsv]
      exact ⟨hk, hkmin⟩

/-- C8: on a fully occupied 64-slot cache, inserting a device whose key is
not present overwrites exactly the slot whose `last_seen` is smallest
(the first such slot on ties): the resulting cache is the old cache with
that one slot replaced by the freshly initialized entry, the returned index
is that slot, its old `last_seen` is a minimum over all slots, and every
other slot is unchanged. -/
theorem lru_eviction (cache : List CachedDevice) (path : List Nat) (now : Nat)
    (hlen : cache.length = 64)
    (hocc : ∀ d ∈ cache, d.path ≠ [])
    (hnew : find_existing cache path 0 = none) :
    ∃ j, j < cache.length ∧
      get_or_create_cached_device cache path now
        = (cache.set j { emptyDevice with path := path.take 127, last_seen := now }, j) ∧
      (∀ m, m < cache.length →
        (cache.getD j emptyDevice).last_seen
          ≤ (cache.getD m emptyDevice).last_seen) ∧
      (∀ m, m ≠ j →
        (get_or_create_cached_device cache path now).1.getD m emptyDevice
          = cache.getD m emptyDevice) := by
  have hne : cache ≠ [] := by
    intro h
    rw [h] at hlen
    simp at hlen
  obtain ⟨hlt, hmin⟩ := select_victim_spec cache hne hocc
  have heq : get_or_create_cached_device cache path now
      = (cache.set (select_victim cache)
          { emptyDevice with path := path.take 127, last_seen := now },
        select_victim cache) := by
    unfold get_or_create_cached_device
    rw [hnew]
  refine ⟨select_victim cache, hlt, heq, hmin, ?_⟩
  intro m hm
  rw [heq]
  dsimp only
  rw [List.getD_eq_getElem?_getD, List.getD_eq_getElem?_getD,
    List.getElem?_set_ne (Ne.symm hm)]

/-- A fully occupied 64-slot cache. -/
def testCacheFull : List CachedDevice := (List.range 64).map mkTestDevice

/-- Witness for `lru_eviction` on a concrete full cache and a fresh key. -/
theorem lru_eviction_witness :
    testCacheFull.length = 64 ∧
    (∀ d ∈ testCacheFull, d.path ≠ []) ∧
    find_existing testCacheFull [9, 9] 0 = none ∧
    (∃ j, j < testCacheFull.length ∧
      get_or_create_cached_device testCacheFull [9, 9] 5
        = (testCacheFull.set j
            { emptyDevice with path := [9, 9].take 127, last_seen := 5 }, j) ∧
      (∀ m, m < testCacheFull.length →
        (testCacheFull.getD j emptyDevice).last_seen
          ≤ (testCacheFull.getD m emptyDevice).last_seen) ∧
      (∀ m, m ≠ j →
        (get_or_create_cached_device testCacheFull [9, 9] 5).1.getD m emptyDevice
          = testCacheFull.getD m emptyDevice)) :=
  ⟨by decide, by decide, by decide,
    lru_eviction testCacheFull [9, 9] 5 (by decide) (by decide) (by decide)⟩

/-- `ble_scanner_t`: the observable scanner state (`running`). -/
structure ScannerSt where
  running : Bool
deriving DecidableEq

/-- `ble_scanner_start` (ble_scanner.c:957): fails when already running;
otherwise the external thread creation and D-Bus StartDiscovery outcome is
abstracted into the boolean `ok` — on success the scanner is running and 0
is returned, on failure `running` is reset to false and -1 is returned. -/
def ble_scanner_start (s : ScannerSt) (ok : Bool) : ScannerSt × Int :=
  if s.running then (s, -1)
  else if ok then ({ running := true }, 0)
  else ({ running := false }, -1)

/-- `ble_scanner_stop` (ble_scanner.c:994): fails when not running,
otherwise stops the scanner. -/
def ble_scanner_stop (s : ScannerSt) : ScannerSt × Int :=
  if s.running = false then (s, -1)
  else ({ running := false }, 0)

/-- `bluetooth_proxy_state_t` (bluetooth_proxy_plugin.c:31): scanner handle
(`none` models a NULL scanner pointer), the `subscribed` flag, and the
`ble_scanning_enabled` switch flag. -/
structure ProxyState where
  scanner : Option ScannerSt
  subscribed : Bool
  ble_scanning_enabled : Bool
deriving DecidableEq

/-- `start_ble_scanning` (bluetooth_proxy_plugin.c:195): -1 without a
scanner; 0 immediately when already subscribed; otherwise start the scanner
and set `subscribed` on success. -/
def start_ble_scanning (st : ProxyState) (ok : Bool) : ProxyState × Int :=
  match st.scanner with
  | none => (st, -1)
  | some s =>
    if st.subscribed then (st, 0)
    else
      let r := ble_scanner_start s ok
      if r.2 < 0 then ({ st with scanner := some r.1 }, -1)
      else ({ st with scanner := some r.1, subscribed := true }, 0)

/-- `stop_ble_scanning` (bluetooth_proxy_plugin.c:214): 0 without a scanner
or when not subscribed; otherwise stop the scanner and clear `subscribed`
on success. -/
def stop_ble_scanning (st : ProxyState) : ProxyState × Int :=
  match st.scanner with
  | none => (st, 0)
  | some s =>
    if st.subscribed = false then (st, 0)
    else
      let r := ble_scanner_stop s
      if r.2 < 0 then ({ st with scanner := some r.1 }, -1)
      else ({ st with scanner := some r.1, subscribed := false }, 0)

/-- `handle_subscribe_ble_advertisements` (bluetooth_proxy_plugin.c:335):
-1 without a scanner; success without starting anything when the
`ble_scanning_enabled` switch is off; otherwise delegate to
`start_ble_scanning`. -/
def handle_subscribe_ble_advertisements (st : ProxyState) (ok : Bool) :
    ProxyState × Int :=
  match st.scanner with
  | none => (st, -1)
  | some _ =>
    if st.ble_scanning_enabled = false then (st, 0)
    else start_ble_scanning st ok

/-- `switch_command_request_t`: the decoded switch command (key, state). -/
structure SwitchCommand where
  key : Nat
  state : Bool
deriving DecidableEq

/-- `handle_ble_scanning_switch_command` (bluetooth_proxy_plugin.c:377),
after a successful decode of the command: -1 for a foreign key; otherwise
set `ble_scanning_enabled` to the commanded state, start or stop scanning
accordingly, and report the resulting value of the flag as the switch state
(the emitted SwitchStateResponse is modelled by its (key, state) content). -/
def handle_ble_scanning_switch_command (st : ProxyState) (cmd : SwitchCommand)
    (ok : Bool) : ProxyState × Int × List (Nat × Bool) :=
  if cmd.key ≠ 100 then (st, -1, [])
  else
    let st1 := { st with ble_scanning_enabled := cmd.state }
    let st2 :=
      if cmd.state then
        match st1.scanner with
        | some _ => (start_ble_scanning st1 ok).1
        | none => st1
      else (stop_ble_scanning st1).1
    (st2, 0, [(100, st2.ble_scanning_enabled)])

theorem start_ble_scanning_enabled (st : ProxyState) (ok : Bool) :
    (start_ble_scanning st ok).1.ble_scanning_enabled = st.ble_scanning_enabled := by
  unfold start_ble_scanning
  cases hs : st.scanner with
  | none => rfl
  | some s =>
    dsimp only
    split
    · rfl
    · split <;> rfl

theorem stop_ble_scanning_enabled (st : ProxyState) :
    (stop_ble_scanning st).1.ble_scanning_enabled = st.ble_scanning_enabled := by
  unfold stop_ble_scanning
  cases hs : st.scanner with
  | none => rfl
  | some s =>
    dsimp only
    split
    · rfl
    · split <;> rfl

theorem handle_switch_eq (st : ProxyState) (cmd : SwitchCommand) (ok : Bool)
    (hkey : cmd.key = 100) :
    ∃ st2 : ProxyState,
      handle_ble_scanning_switch_command st cmd ok
        = (st2, 0, [(100, st2.ble_scanning_enabled)]) ∧
      st2.ble_scanning_enabled = cmd.state := by
  unfold handle_ble_scanning_switch_command
  rw [if_neg (by simp [hkey])]
  dsimp only
  refine ⟨_, rfl, ?_⟩
  split
  · split
    · rw [start_ble_scanning_enabled]
    · rfl
  · rw [stop_ble_scanning_enabled]

/-- C9: (i) handling a subscribe request while the `ble_scanning_enabled`
switch flag is false returns 0 and leaves the plugin state unchanged (the
scanner is not started); (ii) handling a subscribe request while already
subscribed returns 0 and leaves the state unchanged; (iii) after a switch
command for key 100 updates the enabled flag, the switch-state report sent
back carries exactly the new value of that flag, which equals the commanded
state. -/
theorem ble_switch_gating (st : ProxyState) (ok : Bool) (cmd : SwitchCommand) :
    (st.scanner.isSome = true → st.ble_scanning_enabled = false →
      handle_subscribe_ble_advertisements st ok = (st, 0)) ∧
    (st.scanner.isSome = true → st.subscribed = true →
      handle_subscribe_ble_advertisements st ok = (st, 0)) ∧
    (cmd.key = 100 →
      (handle_ble_scanning_switch_command st cmd ok).2.2
        = [(100, cmd.state)] ∧
      (handle_ble_scanning_switch_command st cmd ok).1.ble_scanning_enabled
        = cmd.state) := by
  refine ⟨?_, ?_, ?_⟩
  · intro hsc hen
    unfold handle_subscribe_ble_advertisements
    cases hs : st.scanner with
    | none => rw [hs] at hsc; simp at hsc
    | some s =>
      dsimp only
      rw [if_pos hen]
  · intro hsc hsub
    unfold handle_subscribe_ble_advertisements
    cases hs : st.scanner with
    | none => rw [hs] at hsc; simp at hsc
    | some s =>
      dsimp only
      by_cases hen : st.ble_scanning_enabled = false
      · rw [if_pos hen]
      · rw [if_neg hen]
        unfold start_ble_scanning
        rw [hs]
        dsimp only
        rw [if_pos hsub]
  · intro hkey
    obtain ⟨st2, heq, hen⟩ := handle_switch_eq st cmd ok hkey
    rw [heq]
    dsimp only
    rw [hen]
    exact ⟨rfl, rfl⟩

/-- Witness for `ble_switch_gating`: a disabled-switch subscribe and an
already-subscribed subscribe are no-ops returning 0, and a switch command
turning scanning on is echoed back as (100, true). -/
theorem ble_switch_gating_witness :
    handle_subscribe_ble_advertisements
        (ProxyState.mk (some (ScannerSt.mk false)) false false) true
      = (ProxyState.mk (some (ScannerSt.mk false)) false false, 0) ∧
    handle_subscribe_ble_advertisements
        (ProxyState.mk (some (ScannerSt.mk true)) true true) true
      = (ProxyState.mk (some (ScannerSt.mk true)) true true, 0) ∧
    (handle_ble_scanning_switch_command
        (ProxyState.mk (some (ScannerSt.mk false)) false false)
        (SwitchCommand.mk 100 true) true).2.2
      = [(100, true)] :=
  ⟨(ble_switch_gating (ProxyState.mk (some (ScannerSt.mk false)) false false)
      true (SwitchCommand.mk 100 true)).1 rfl rfl,
   (ble_switch_gating (ProxyState.mk (some (ScannerSt.mk true)) true true)
      true (SwitchCommand.mk 100 true)).2.1 rfl rfl,
   ((ble_switch_gating (ProxyState.mk (some (ScannerSt.mk false)) false false)
      true (SwitchCommand.mk 100 true)).2.2 rfl).1⟩
